import Mathlib

/-!
# Mob factory of the feudal simulator

A shallow embedding of `src/src/MobFactory.cpp` / `MobFactory.h`: the mobs, the
factory that owns them, and the two behaviours `Move` and `Create` that consult and
grow the shared world grid.

* C++ `int` coordinates are integers in `[INT_MIN, INT_MAX]`; `++` and `--` wrap
  around at the limits (two's complement), where C++ leaves the result undefined.
* `random()` is modelled by passing every draw as an explicit natural number.
* The world grid, the event broadcaster and the observer socket live outside `src/`;
  they are modelled from section 6 of the specification.
* The other undefined behaviour (reading the flags of a room that does not exist,
  `% 0`) is modelled as `none`.
-/

/-! ## Machine integers -/

/-- Smallest value of a 32-bit C++ `int`. -/
def INT_MIN : Int := -2147483648

/-- Largest value of a 32-bit C++ `int`. -/
def INT_MAX : Int := 2147483647

/-- Two's-complement wrap-around of an integer into the range of `int`. -/
def wrapInt (z : Int) : Int := (z + 2147483648) % 4294967296 - 2147483648

/-- A C++ `int`: an integer between `INT_MIN` and `INT_MAX`. -/
def CInt : Type := {z : Int // INT_MIN ≤ z ∧ z ≤ INT_MAX}

instance : DecidableEq CInt := fun a b =>
  decidable_of_iff (a.val = b.val) Subtype.ext_iff.symm

/-- Conversion of an integer to `int`, wrapping around. -/
def CInt.ofInt (z : Int) : CInt :=
  ⟨wrapInt z, by unfold wrapInt INT_MIN INT_MAX; omega⟩

/-- The mathematical value of an `int`. -/
def CInt.toInt (a : CInt) : Int := a.val

instance (n : Nat) : OfNat CInt n := ⟨CInt.ofInt n⟩

/-- The C++ `a++` on an `int`. -/
def CInt.inc (a : CInt) : CInt := CInt.ofInt (a.val + 1)

/-- The C++ `a--` on an `int`. -/
def CInt.dec (a : CInt) : CInt := CInt.ofInt (a.val - 1)

/-! ## World grid (external collaborator) -/

/-- Modelled from the spec: the room connectivity record of the world grid, whose class is
not under `src/`. A room has a coordinate, a text description and four independent
openness flags (north, south, east, west). -/
structure ROOM where
  x : CInt
  y : CInt
  desc : String
  n : Bool
  s : Bool
  e : Bool
  w : Bool
deriving DecidableEq

/-- Modelled from the spec: the world grid (the class returned by `GetWorld()`, not under
`src/`), a collection of rooms keyed by integer coordinates, in insertion order. -/
structure World where
  rooms : List ROOM
deriving DecidableEq

/-- Whether a room record sits at coordinate `(x, y)`. -/
def ROOM.isAt (r : ROOM) (x y : CInt) : Bool := decide (r.x = x) && decide (r.y = y)

/-- Modelled from the spec: setting the openness flag named by `dir` in one room record
(part of `Open`, not under `src/`); any other name changes nothing. -/
def ROOM.openDir (r : ROOM) (dir : String) : ROOM :=
  if dir = "north" then { r with n := true }
  else if dir = "south" then { r with s := true }
  else if dir = "east" then { r with e := true }
  else if dir = "west" then { r with w := true }
  else r

/-- The room record stored for coordinate `(x, y)`, if any: the lookup shared by `FindAt`
and `GetAt`. -/
def World.roomAt (w : World) (x y : CInt) : Option ROOM :=
  w.rooms.find? (fun r => r.isAt x y)

/-- Modelled from the spec: `FindAt(x, y) -> bool` with the description as optional output
(not under `src/`): the existence check. `some desc` stands for `true`. -/
def World.FindAt (w : World) (x y : CInt) : Option String :=
  (w.roomAt x y).map (fun r => r.desc)

/-- Modelled from the spec: `GetAt(x, y) -> (description, north_open, south_open,
east_open, west_open)` (not under `src/`). Its precondition is that a room exists at
`(x, y)`; `none` when it is violated. -/
def World.GetAt (w : World) (x y : CInt) : Option (String × Bool × Bool × Bool × Bool) :=
  (w.roomAt x y).map (fun r => (r.desc, r.n, r.s, r.e, r.w))

/-- A room record with all four directions closed. -/
def ROOM.closed (x y : CInt) (desc : String) : ROOM :=
  { x := x, y := y, desc := desc, n := false, s := false, e := false, w := false }

/-- Modelled from the spec: `AddAt(x, y, description)` (not under `src/`) inserts a new
room, with all four directions closed; it fails, inserting nothing, if a room already
exists there. -/
def World.AddAt (w : World) (x y : CInt) (desc : String) : World :=
  if (w.FindAt x y).isSome then w
  else { rooms := w.rooms ++ [ROOM.closed x y desc] }

/-- Modelled from the spec: `Open(x, y, direction)` (not under `src/`) sets the named
direction's openness flag at `(x, y)` to true; no-op if already open. -/
def World.Open (w : World) (x y : CInt) (dir : String) : World :=
  { rooms := w.rooms.map (fun r => if r.isAt x y then r.openDir dir else r) }

/-- Modelled from the spec: `GetRandomLocation() -> (x, y, description)` (not under
`src/`) returns a chosen existing room, here the one selected by the draw `r`;
precondition: at least one room exists (`none` otherwise). -/
def World.GetRandomLocation (w : World) (r : Nat) : Option (CInt × CInt × String) :=
  if h : 0 < w.rooms.length then
    let room := w.rooms.get ⟨r % w.rooms.length, Nat.mod_lt r h⟩
    some (room.x, room.y, room.desc)
  else none

/-- The number of rooms of the world grid. -/
def World.roomCount (w : World) : Nat := w.rooms.length

/-- Selection among the four flags returned by `GetAt` of the one named by `dir`
(`false` for a name that is no direction). -/
def flagNamed (dir : String) (n s e w : Bool) : Bool :=
  if dir = "north" then n
  else if dir = "south" then s
  else if dir = "east" then e
  else if dir = "west" then w
  else false

/-- Whether a room exists at `(x, y)` and `GetAt` reports its flag named `dir` open. -/
def World.isOpen (w : World) (x y : CInt) (dir : String) : Bool :=
  match w.GetAt x y with
  | none => false
  | some (_, n, s, e, w') => flagNamed dir n s e w'

/-- Whether `FindAt` reports a room at `(x, y)`. -/
def World.hasRoom (w : World) (x y : CInt) : Bool := (w.FindAt x y).isSome

/-! ## Handler and event broadcaster (external collaborator) -/

/-- Modelled from the spec: the handler (`SmallHandler`, not under `src/`) gives access to
the world grid and broadcasts events. `events` records every `Event(x, y, message)` call,
oldest first. -/
structure SmallHandler where
  world : World
  events : List (CInt × CInt × String)
deriving DecidableEq

/-- The world grid of the handler. -/
def SmallHandler.GetWorld (h : SmallHandler) : World := h.world

/-- Modelled from the spec: `Event(x, y, message)` (not under `src/`) delivers `message`
to the observers present at `(x, y)`; the call is recorded in `events`. -/
def SmallHandler.Event (h : SmallHandler) (x y : CInt) (msg : String) : SmallHandler :=
  { h with events := h.events ++ [(x, y, msg)] }

/-- A world update through the handler (the world grid is shared by reference). -/
def SmallHandler.setWorld (h : SmallHandler) (w : World) : SmallHandler :=
  { h with world := w }

/-! ## Mobs -/

/-- The struct `MobFactory::MOB` (`MobFactory.h`, lines 33-45): position and name. The
handler reference `m_handler` is passed to each behaviour instead of being stored. -/
structure MOB where
  m_x : CInt
  m_y : CInt
  m_name : String
deriving DecidableEq

/-- `MobFactory::MOB::SetNewPos` (`MobFactory.cpp`, lines 198-202). -/
def MOB.SetNewPos (m : MOB) (x y : CInt) : MOB := { m with m_x := x, m_y := y }

/-- The `switch (random() % 4)` of `MOB::Move` (`MobFactory.cpp`, lines 119-145): the
candidate coordinate, the direction name, the opposite direction name and the openness
flag of the chosen direction, given the flags `n s e w` read by `GetAt`. Without a
matching case the variables keep their initial values. -/
def MOB.moveSwitch (m : MOB) (n s e w : Bool) (r : Nat) :
    CInt × CInt × String × String × Bool :=
  match r % 4 with
  | 0 => (m.m_x, m.m_y.dec, "north", "south", n)
  | 1 => (m.m_x, m.m_y.inc, "south", "north", s)
  | 2 => (m.m_x.inc, m.m_y, "east", "west", e)
  | 3 => (m.m_x.dec, m.m_y, "west", "east", w)
  | _ => (m.m_x, m.m_y, "", "", false)

/-- `MobFactory::MOB::Move` (`MobFactory.cpp`, lines 109-152), with the draw `r` of
`random()`. `none` when `GetAt` is called on a coordinate without a room (its flags would
be read uninitialised). -/
def MOB.Move (m : MOB) (h : SmallHandler) (r : Nat) : Option (SmallHandler × MOB) :=
  match h.GetWorld.GetAt m.m_x m.m_y with
  | none => none
  | some (_, n, s, e, w) =>
    match m.moveSwitch n s e w r with
    | (ny_x, ny_y, dir, rdir, isOpen) =>
      if isOpen && (h.GetWorld.FindAt ny_x ny_y).isSome then
        let h1 := h.Event m.m_x m.m_y (m.m_name ++ " leaves " ++ dir ++ "\n")
        let m1 := m.SetNewPos ny_x ny_y
        let h2 := h1.Event m1.m_x m1.m_y (m1.m_name ++ " enters from the " ++ rdir ++ "\n")
        some (h2, m1)
      else some (h, m)

/-- The `switch (random() % 4)` of `MOB::Create` (`MobFactory.cpp`, lines 161-183): the
candidate coordinate, the direction name and the opposite direction name. Without a
matching case the variables keep their initial values. -/
def MOB.createSwitch (m : MOB) (r : Nat) : CInt × CInt × String × String :=
  match r % 4 with
  | 0 => (m.m_x, m.m_y.dec, "north", "south")
  | 1 => (m.m_x, m.m_y.inc, "south", "north")
  | 2 => (m.m_x.inc, m.m_y, "east", "west")
  | 3 => (m.m_x.dec, m.m_y, "west", "east")
  | _ => (m.m_x, m.m_y, "", "")

/-- `MobFactory::MOB::Create` (`MobFactory.cpp`, lines 155-195), with the draw `r` of
`random()`. -/
def MOB.Create (m : MOB) (h : SmallHandler) (r : Nat) : SmallHandler × MOB :=
  match m.createSwitch r with
  | (ny_x, ny_y, dir, rdir) =>
    if !(h.GetWorld.FindAt ny_x ny_y).isSome then
      let str := "A small cell (created by " ++ m.m_name ++ ")"
      let h1 := h.setWorld (h.GetWorld.AddAt ny_x ny_y str)
      let h2 := h1.setWorld (h1.GetWorld.Open m.m_x m.m_y dir)
      let h3 := h2.setWorld (h2.GetWorld.Open ny_x ny_y rdir)
      let h4 := h3.Event m.m_x m.m_y (m.m_name ++ " creates a cell to the " ++ dir ++ "\n")
      let h5 := h4.Event m.m_x m.m_y (m.m_name ++ " leaves " ++ dir ++ "\n")
      (h5, m.SetNewPos ny_x ny_y)
    else (h, m)

/-! ## The factory -/

/-- The name prefixes `m_name_beg`, filled by the constructor (`MobFactory.cpp`,
lines 32-42) and never modified afterwards. -/
def MobFactory.m_name_beg : List String :=
  ["naz", "mor", "gnar", "aahr", "more", "dark", "bam", "raab", "rake", "lor", "smur"]

/-- The name suffixes `m_name_end`, filled by the constructor (`MobFactory.cpp`,
lines 44-56) and never modified afterwards. -/
def MobFactory.m_name_end : List String :=
  ["guz", "kill", "gul", "gok", "tan", "tok", "bul", "zod", "zed", "dor", "grim", "yohn",
   "fan"]

/-- The C++ `c - 32` stored back into a `char` (8 bits). -/
def charMinus32 (c : Char) : Char := Char.ofNat ((c.toNat + 224) % 256)

/-- The statement `name[0] = name[0] - 32` (`MobFactory.cpp`, line 83). -/
def lowerFirstBy32 (name : String) : String :=
  match name.data with
  | [] => name
  | c :: cs => String.mk (charMinus32 c :: cs)

/-- The name computed by `Spawn` (`MobFactory.cpp`, lines 81-83) from the two draws of
`random()`: `rBeg` indexes the prefixes and `rEnd` the suffixes (C++ leaves open which of
the two calls is evaluated first; both draws are arbitrary here). -/
def MobFactory.spawnName (rBeg rEnd : Nat) : String :=
  lowerFirstBy32
    (MobFactory.m_name_beg.get
        ⟨rBeg % MobFactory.m_name_beg.length, Nat.mod_lt rBeg (by decide)⟩ ++
      MobFactory.m_name_end.get
        ⟨rEnd % MobFactory.m_name_end.length, Nat.mod_lt rEnd (by decide)⟩)

/-- The class `MobFactory` (`MobFactory.h`, lines 30-62): the handler it refers to and the
mobs it owns, in spawn order. The two name tables are the constants above. -/
structure MobFactory where
  m_handler : SmallHandler
  m_mobs : List MOB
deriving DecidableEq

/-- `MobFactory::NumberOfMobs` (`MobFactory.h`, line 55). -/
def MobFactory.NumberOfMobs (f : MobFactory) : Nat := f.m_mobs.length

/-- `MobFactory::Spawn` (`MobFactory.cpp`, lines 72-91). `rLoc` is the randomness used by
`GetRandomLocation`, `rBeg` and `rEnd` are the two draws of the name. `none` when the
world is empty (precondition of `GetRandomLocation`). -/
def MobFactory.Spawn (f : MobFactory) (rLoc rBeg rEnd : Nat) : Option MobFactory :=
  match f.m_handler.GetWorld.GetRandomLocation rLoc with
  | none => none
  | some (x, y, _) =>
    let name := MobFactory.spawnName rBeg rEnd
    let str := name ++ " enters the world\n"
    let h1 := f.m_handler.Event x y str
    let p : MOB := { m_x := x, m_y := y, m_name := name }
    some { m_handler := h1, m_mobs := f.m_mobs ++ [p] }

/-- The constructor `MobFactory::MobFactory` (`MobFactory.cpp`, lines 29-59), named `ctor`
because the class name is taken by the structure: the name tables are filled and `Spawn`
is called once. -/
def MobFactory.ctor (w : SmallHandler) (rLoc rBeg rEnd : Nat) : Option MobFactory :=
  MobFactory.Spawn { m_handler := w, m_mobs := [] } rLoc rBeg rEnd

/-- `MobFactory::RandomAction` (`MobFactory.cpp`, lines 94-106). `rMob`, `rAct` and `rDir`
are the three draws of `random()`: the mob, the action and the direction. `none` when
there is no mob (`random() % 0`) or when `Move` is undefined. -/
def MobFactory.RandomAction (f : MobFactory) (rMob rAct rDir : Nat) : Option MobFactory :=
  if hsz : 0 < f.m_mobs.length then
    let i := rMob % f.m_mobs.length
    let p := f.m_mobs.get ⟨i, Nat.mod_lt rMob hsz⟩
    match rAct % 10 with
    | 0 =>
      match p.Create f.m_handler rDir with
      | (h1, p1) => some { m_handler := h1, m_mobs := f.m_mobs.set i p1 }
    | _ =>
      match p.Move f.m_handler rDir with
      | none => none
      | some (h1, p1) => some { m_handler := h1, m_mobs := f.m_mobs.set i p1 }
  else none

/-- Modelled from the spec: the observer of `ShowNamesAt` (`SmallSocket`, not under
`src/`), a presentation sink for one viewer. `sent` records every `Send(message)` call,
oldest first. -/
structure SmallSocket where
  sent : List String
deriving DecidableEq

/-- Modelled from the spec: `Send(message)` (not under `src/`) delivers a line of text to
the viewer; the call is recorded in `sent`. -/
def SmallSocket.Send (p : SmallSocket) (msg : String) : SmallSocket :=
  { p with sent := p.sent ++ [msg] }

/-- The `for` loop of `ShowNamesAt` (`MobFactory.cpp`, lines 207-214) over the mobs still
to visit, threading the observer. -/
def MobFactory.showNamesLoop (x y : CInt) (pfx : String) :
    List MOB → SmallSocket → SmallSocket
  | [], p => p
  | m :: rest, p =>
    if m.m_x = x ∧ m.m_y = y then
      MobFactory.showNamesLoop x y pfx rest (p.Send ("  " ++ pfx ++ m.m_name ++ "\n"))
    else MobFactory.showNamesLoop x y pfx rest p

/-- `MobFactory::ShowNamesAt` (`MobFactory.cpp`, lines 205-215): the factory and the
observer after the call. -/
def MobFactory.ShowNamesAt (f : MobFactory) (p : SmallSocket) (x y : CInt) (pfx : String) :
    MobFactory × SmallSocket :=
  (f, MobFactory.showNamesLoop x y pfx f.m_mobs p)

/-! ## The calls made by `Create`, in order -/

/-- A call made by a behaviour on the world grid, on the broadcaster or on the mob. -/
inductive Effect where
  | addAt (x y : CInt) (desc : String)
  | openAt (x y : CInt) (dir : String)
  | event (x y : CInt) (msg : String)
  | setNewPos (x y : CInt)
deriving DecidableEq

/-- What one call does to the handler and to the mob. -/
def Effect.apply (s : SmallHandler × MOB) : Effect → SmallHandler × MOB
  | Effect.addAt x y desc => (s.1.setWorld (s.1.GetWorld.AddAt x y desc), s.2)
  | Effect.openAt x y dir => (s.1.setWorld (s.1.GetWorld.Open x y dir), s.2)
  | Effect.event x y msg => (s.1.Event x y msg, s.2)
  | Effect.setNewPos x y => (s.1, s.2.SetNewPos x y)

/-- The calls of `MobFactory::MOB::Create` (`MobFactory.cpp`, lines 184-194) in the order
of the source: `AddAt`, `Open`, `Open`, `Event`, `Event`, `SetNewPos` when no room exists
at the candidate coordinate, and no call otherwise. -/
def MOB.CreateEffects (m : MOB) (h : SmallHandler) (r : Nat) : List Effect :=
  match m.createSwitch r with
  | (ny_x, ny_y, dir, rdir) =>
    if !(h.GetWorld.FindAt ny_x ny_y).isSome then
      [Effect.addAt ny_x ny_y ("A small cell (created by " ++ m.m_name ++ ")"),
       Effect.openAt m.m_x m.m_y dir,
       Effect.openAt ny_x ny_y rdir,
       Effect.event m.m_x m.m_y (m.m_name ++ " creates a cell to the " ++ dir ++ "\n"),
       Effect.event m.m_x m.m_y (m.m_name ++ " leaves " ++ dir ++ "\n"),
       Effect.setNewPos ny_x ny_y]
    else []

/-! ## Sequences of calls -/

/-- A call of one of the two public operations that change a factory, with the draws of
`random()` it consumes. -/
inductive Call where
  | spawn (rLoc rBeg rEnd : Nat)
  | randomAction (rMob rAct rDir : Nat)
deriving DecidableEq

/-- One call on a factory. -/
def MobFactory.call (f : MobFactory) : Call → Option MobFactory
  | Call.spawn rLoc rBeg rEnd => f.Spawn rLoc rBeg rEnd
  | Call.randomAction rMob rAct rDir => f.RandomAction rMob rAct rDir

/-- A sequence of calls on a factory, first call first; `none` as soon as one call is
undefined. -/
def MobFactory.run (f : MobFactory) : List Call → Option MobFactory
  | [] => some f
  | c :: cs =>
    match f.call c with
    | none => none
    | some f1 => f1.run cs

/-! ## Properties of a world and of a factory -/

/-- The reciprocal-connection invariant of the specification, for rooms `A` and `B` that
both exist: if `A` records an open connection toward `B`, then `B` records the open
connection back toward `A`. North of `(x, y)` is `(x, y - 1)`, south is `(x, y + 1)`,
east is `(x + 1, y)` and west is `(x - 1, y)`, as in `Move` and `Create`. -/
def World.Reciprocal (w : World) : Prop :=
  ∀ x y : CInt,
    (w.isOpen x y "north" = true → w.hasRoom x y.dec = true →
        w.isOpen x y.dec "south" = true) ∧
    (w.isOpen x y "south" = true → w.hasRoom x y.inc = true →
        w.isOpen x y.inc "north" = true) ∧
    (w.isOpen x y "east" = true → w.hasRoom x.inc y = true →
        w.isOpen x.inc y "west" = true) ∧
    (w.isOpen x y "west" = true → w.hasRoom x.dec y = true →
        w.isOpen x.dec y "east" = true)

/-- Every open flag of an existing room points at a coordinate where a room exists. -/
def World.NoDangling (w : World) : Prop :=
  ∀ x y : CInt,
    (w.isOpen x y "north" = true → w.hasRoom x y.dec = true) ∧
    (w.isOpen x y "south" = true → w.hasRoom x y.inc = true) ∧
    (w.isOpen x y "east" = true → w.hasRoom x.inc y = true) ∧
    (w.isOpen x y "west" = true → w.hasRoom x.dec y = true)

/-- The mob-position invariant: every mob of the factory stands at a coordinate where a
room exists. -/
def MobFactory.MobsInRooms (f : MobFactory) : Prop :=
  ∀ m ∈ f.m_mobs, f.m_handler.GetWorld.hasRoom m.m_x m.m_y = true

/-- The `capitalize_first_letter` of the specification (section 4.1): the first character
is replaced by its upper-case form. -/
def capitalize_first_letter (s : String) : String :=
  match s.data with
  | [] => s
  | c :: cs => String.mk (c.toUpper :: cs)

/-- The checks of name well-formedness for the prefix with index `i` and the suffix with
index `j`: the name of `Spawn` is the capitalised concatenation, its first character is
upper case and the others are lower case. -/
def nameCheck (i j : Nat) : Bool :=
  match MobFactory.m_name_beg[i]?, MobFactory.m_name_end[j]? with
  | some p, some s =>
    decide (MobFactory.spawnName i j = capitalize_first_letter (p ++ s)) &&
    (match (MobFactory.spawnName i j).data with
     | [] => false
     | c :: cs => c.isUpper && cs.all Char.isLower)
  | _, _ => false

/-! ## Sample states -/

/-- A world with the single room `(0, 0)`, all directions closed. -/
def startWorld : World := { rooms := [ROOM.closed 0 0 "start"] }

/-- A handler over `startWorld` that has broadcast nothing yet. -/
def startHandler : SmallHandler := { world := startWorld, events := [] }

/-- A world with the rooms `(0, 0)` and `(1, 0)`, connected to each other. -/
def corridorWorld : World :=
  { rooms := [{ x := 0, y := 0, desc := "start", n := false, s := false, e := true,
                w := false },
              { x := 1, y := 0, desc := "cell", n := false, s := false, e := false,
                w := true }] }

/-- A handler over `corridorWorld` that has broadcast nothing yet. -/
def corridorHandler : SmallHandler := { world := corridorWorld, events := [] }

/-- A mob standing at `(0, 0)`. -/
def sampleMob : MOB := { m_x := 0, m_y := 0, m_name := "Nazguz" }

/-- A handler over a world with the rooms `(0, 0)`, all closed, and `(2, 0)`, whose west
flag is open although no room exists at `(1, 0)`. -/
def gapHandler : SmallHandler :=
  { world := { rooms := [ROOM.closed 0 0 "start",
                         { x := 2, y := 0, desc := "far", n := false, s := false,
                           e := false, w := true }] },
    events := [] }

/-- A factory over `startHandler` owning the single mob `sampleMob`. -/
def startFactory : MobFactory := { m_handler := startHandler, m_mobs := [sampleMob] }

/-- A factory over `startHandler` that owns no mob. -/
def emptyFactory : MobFactory := { m_handler := startHandler, m_mobs := [] }

/-- A factory over `corridorHandler` with two mobs at `(0, 0)` and, between them in spawn
order, one mob at `(1, 0)`. -/
def crowdFactory : MobFactory :=
  { m_handler := corridorHandler,
    m_mobs := [{ m_x := 0, m_y := 0, m_name := "Nazguz" },
               { m_x := 1, m_y := 0, m_name := "Morkill" },
               { m_x := 0, m_y := 0, m_name := "Gnargul" }] }

/-- The world of the single-room scenario: only the room `(0, 0)`, with the description
`desc` and all four directions closed. -/
def singleRoomWorld (desc : String) : World := { rooms := [ROOM.closed 0 0 desc] }

/-- A factory over `corridorHandler` owning the single mob `sampleMob`. -/
def corridorFactory : MobFactory := { m_handler := corridorHandler, m_mobs := [sampleMob] }

/-! ## Directions -/

/-- The four cardinal directions, to state facts about the two `switch` statements
uniformly. -/
inductive Dir where
  | north
  | south
  | east
  | west
deriving DecidableEq

/-- The name of a direction, as passed to `Open`. -/
def Dir.name : Dir → String
  | Dir.north => "north"
  | Dir.south => "south"
  | Dir.east => "east"
  | Dir.west => "west"

/-- The opposite direction. -/
def Dir.opposite : Dir → Dir
  | Dir.north => Dir.south
  | Dir.south => Dir.north
  | Dir.east => Dir.west
  | Dir.west => Dir.east

/-- The x coordinate of the neighbour in a direction. -/
def Dir.stepX (d : Dir) (x : CInt) : CInt :=
  match d with
  | Dir.east => x.inc
  | Dir.west => x.dec
  | _ => x

/-- The y coordinate of the neighbour in a direction. -/
def Dir.stepY (d : Dir) (y : CInt) : CInt :=
  match d with
  | Dir.north => y.dec
  | Dir.south => y.inc
  | _ => y

/-- The residue of `random() % 4` that selects a direction in the two `switch`
statements. -/
def Dir.draw : Dir → Nat
  | Dir.north => 0
  | Dir.south => 1
  | Dir.east => 2
  | Dir.west => 3

/-! ## Machine-integer arithmetic -/

theorem CInt.inc_dec (a : CInt) : a.dec.inc = a := by
  apply Subtype.ext
  have h := a.property
  simp only [CInt.inc, CInt.dec, CInt.ofInt, wrapInt, INT_MIN, INT_MAX] at *
  omega

theorem CInt.dec_inc (a : CInt) : a.inc.dec = a := by
  apply Subtype.ext
  have h := a.property
  simp only [CInt.inc, CInt.dec, CInt.ofInt, wrapInt, INT_MIN, INT_MAX] at *
  omega

theorem CInt.inc_ne (a : CInt) : a.inc ≠ a := by
  intro h
  have h1 := congrArg Subtype.val h
  have h2 := a.property
  simp only [CInt.inc, CInt.ofInt, wrapInt, INT_MIN, INT_MAX] at *
  omega

theorem CInt.dec_ne (a : CInt) : a.dec ≠ a := by
  intro h
  have h1 := congrArg Subtype.val h
  have h2 := a.property
  simp only [CInt.dec, CInt.ofInt, wrapInt, INT_MIN, INT_MAX] at *
  omega

/-! ## Lookup in the world grid -/

theorem ROOM.isAt_iff (r : ROOM) (x y : CInt) : r.isAt x y = true ↔ r.x = x ∧ r.y = y := by
  simp [ROOM.isAt]

theorem ROOM.openDir_x (r : ROOM) (d : String) : (r.openDir d).x = r.x := by
  unfold ROOM.openDir
  split_ifs <;> rfl

theorem ROOM.openDir_y (r : ROOM) (d : String) : (r.openDir d).y = r.y := by
  unfold ROOM.openDir
  split_ifs <;> rfl

theorem ROOM.openDir_desc (r : ROOM) (d : String) : (r.openDir d).desc = r.desc := by
  unfold ROOM.openDir
  split_ifs <;> rfl

theorem ROOM.openDir_isAt (r : ROOM) (d : String) (x y : CInt) :
    (r.openDir d).isAt x y = r.isAt x y := by
  simp [ROOM.isAt, ROOM.openDir_x, ROOM.openDir_y]

theorem World.roomAt_isAt {w : World} {x y : CInt} {r : ROOM} (h : w.roomAt x y = some r) :
    r.x = x ∧ r.y = y := by
  have := List.find?_some h
  exact (ROOM.isAt_iff r x y).1 this

theorem World.hasRoom_iff_roomAt (w : World) (x y : CInt) :
    w.hasRoom x y = true ↔ ∃ r, w.roomAt x y = some r := by
  unfold World.hasRoom World.FindAt
  cases w.roomAt x y <;> simp

theorem World.roomAt_Open (w : World) (x y : CInt) (d : String) (x' y' : CInt) :
    (w.Open x y d).roomAt x' y' =
      (w.roomAt x' y').map (fun r => if r.isAt x y then r.openDir d else r) := by
  unfold World.Open World.roomAt
  simp only
  induction w.rooms with
  | nil => rfl
  | cons a l ih =>
    simp only [List.map_cons, List.find?_cons]
    have hk : (if a.isAt x y then a.openDir d else a).isAt x' y' = a.isAt x' y' := by
      split_ifs
      · exact ROOM.openDir_isAt a d x' y'
      · rfl
    rw [hk]
    cases a.isAt x' y'
    · exact ih
    · rfl

theorem ROOM.closed_isAt (x y : CInt) (s : String) (x' y' : CInt) :
    (ROOM.closed x y s).isAt x' y' = true ↔ x' = x ∧ y' = y := by
  simp only [ROOM.isAt_iff, ROOM.closed]
  constructor
  · rintro ⟨h1, h2⟩
    exact ⟨h1.symm, h2.symm⟩
  · rintro ⟨h1, h2⟩
    exact ⟨h1.symm, h2.symm⟩

theorem World.roomAt_AddAt (w : World) (x y : CInt) (s : String) (x' y' : CInt)
    (hfree : w.roomAt x y = none) :
    (w.AddAt x y s).roomAt x' y' =
      if x' = x ∧ y' = y then some (ROOM.closed x y s) else w.roomAt x' y' := by
  have hf : (w.FindAt x y).isSome = false := by simp [World.FindAt, hfree]
  unfold World.AddAt
  rw [hf]
  simp only [Bool.false_eq_true, if_false]
  unfold World.roomAt at *
  simp only [List.find?_append]
  by_cases hc : x' = x ∧ y' = y
  · rw [if_pos hc]
    obtain ⟨rfl, rfl⟩ := hc
    rw [hfree]
    have : (ROOM.closed x' y' s).isAt x' y' = true := (ROOM.closed_isAt _ _ _ _ _).2 ⟨rfl, rfl⟩
    simp [List.find?_cons, this]
  · rw [if_neg hc]
    cases hq : List.find? (fun r => r.isAt x' y') w.rooms with
    | some r => simp
    | none =>
      have : (ROOM.closed x y s).isAt x' y' = false := by
        rw [Bool.eq_false_iff]
        intro hh
        exact hc ((ROOM.closed_isAt _ _ _ _ _).1 hh)
      simp [List.find?_cons, this]

/-! ## What the observers see after `Open` and `AddAt` -/

theorem World.isOpen_iff (w : World) (x y : CInt) (d : String) :
    w.isOpen x y d = true ↔
      ∃ r, w.roomAt x y = some r ∧ flagNamed d r.n r.s r.e r.w = true := by
  unfold World.isOpen World.GetAt
  cases w.roomAt x y <;> simp

theorem World.hasRoom_of_isOpen {w : World} {x y : CInt} {d : String}
    (h : w.isOpen x y d = true) : w.hasRoom x y = true := by
  obtain ⟨r, hr, -⟩ := (World.isOpen_iff w x y d).1 h
  exact (World.hasRoom_iff_roomAt w x y).2 ⟨r, hr⟩

theorem flagNamed_openDir (r : ROOM) (d d' : String) :
    flagNamed d' (r.openDir d).n (r.openDir d).s (r.openDir d).e (r.openDir d).w =
      (flagNamed d' r.n r.s r.e r.w ||
        (decide (d' = d) && flagNamed d true true true true)) := by
  unfold ROOM.openDir
  by_cases h1 : d = "north"
  · subst h1
    by_cases h2 : d' = "north"
    · subst h2; simp [flagNamed]
    · simp [flagNamed, h2]
  by_cases h2 : d = "south"
  · subst h2
    by_cases h3 : d' = "south"
    · subst h3; simp [flagNamed]
    · simp [flagNamed, h3]
  by_cases h3 : d = "east"
  · subst h3
    by_cases h4 : d' = "east"
    · subst h4; simp [flagNamed]
    · simp [flagNamed, h4]
  by_cases h4 : d = "west"
  · subst h4
    by_cases h5 : d' = "west"
    · subst h5; simp [flagNamed]
    · simp [flagNamed, h5]
  · simp [flagNamed, h1, h2, h3, h4]

theorem World.FindAt_Open (w : World) (x y : CInt) (d : String) (x' y' : CInt) :
    (w.Open x y d).FindAt x' y' = w.FindAt x' y' := by
  unfold World.FindAt
  rw [World.roomAt_Open]
  cases w.roomAt x' y' with
  | none => rfl
  | some r =>
    simp only [Option.map_some']
    split_ifs
    · rw [ROOM.openDir_desc]
    · rfl

theorem World.hasRoom_Open (w : World) (x y : CInt) (d : String) (x' y' : CInt) :
    (w.Open x y d).hasRoom x' y' = w.hasRoom x' y' := by
  unfold World.hasRoom
  rw [World.FindAt_Open]

theorem World.isOpen_Open (w : World) (x y : CInt) (d : String) (x' y' : CInt)
    (d' : String) :
    (w.Open x y d).isOpen x' y' d' = true ↔
      w.isOpen x' y' d' = true ∨
        (x' = x ∧ y' = y ∧ w.hasRoom x y = true ∧ d' = d ∧
          flagNamed d true true true true = true) := by
  rw [World.isOpen_iff, World.isOpen_iff, World.roomAt_Open]
  constructor
  · rintro ⟨r, hr, hf⟩
    cases hq : w.roomAt x' y' with
    | none => rw [hq] at hr; simp at hr
    | some r0 =>
      rw [hq] at hr
      simp only [Option.map_some', Option.some.injEq] at hr
      obtain ⟨hx, hy⟩ := World.roomAt_isAt hq
      by_cases hat : r0.isAt x y = true
      · rw [if_pos hat] at hr
        subst hr
        rw [flagNamed_openDir] at hf
        simp only [Bool.or_eq_true, Bool.and_eq_true, decide_eq_true_eq] at hf
        rcases hf with hf | ⟨hd, hv⟩
        · exact Or.inl ⟨r0, rfl, hf⟩
        · obtain ⟨hx2, hy2⟩ := (ROOM.isAt_iff r0 x y).1 hat
          have hxx : x' = x := hx.symm.trans hx2
          have hyy : y' = y := hy.symm.trans hy2
          refine Or.inr ⟨hxx, hyy, ?_, hd, hv⟩
          rw [World.hasRoom_iff_roomAt]
          exact ⟨r0, by rw [← hxx, ← hyy]; exact hq⟩
      · rw [if_neg hat] at hr
        subst hr
        exact Or.inl ⟨r0, rfl, hf⟩
  · rintro (⟨r, hr, hf⟩ | ⟨rfl, rfl, hh, rfl, hv⟩)
    · rw [hr]
      refine ⟨_, rfl, ?_⟩
      beta_reduce
      split_ifs
      · rw [flagNamed_openDir, hf]; rfl
      · exact hf
    · obtain ⟨r, hr⟩ := (World.hasRoom_iff_roomAt w x' y').1 hh
      rw [hr]
      refine ⟨_, rfl, ?_⟩
      obtain ⟨hx, hy⟩ := World.roomAt_isAt hr
      beta_reduce
      rw [if_pos ((ROOM.isAt_iff r x' y').2 ⟨hx, hy⟩), flagNamed_openDir, hv]
      simp

theorem World.roomCount_Open (w : World) (x y : CInt) (d : String) :
    (w.Open x y d).roomCount = w.roomCount := by
  simp [World.Open, World.roomCount]

theorem World.roomAt_none_of_hasRoom {w : World} {x y : CInt} (h : w.hasRoom x y = false) :
    w.roomAt x y = none := by
  unfold World.hasRoom World.FindAt at h
  cases hq : w.roomAt x y with
  | none => rfl
  | some r => rw [hq] at h; simp at h

theorem World.FindAt_AddAt (w : World) (x y : CInt) (s : String) (x' y' : CInt)
    (hfree : w.hasRoom x y = false) :
    (w.AddAt x y s).FindAt x' y' = if x' = x ∧ y' = y then some s else w.FindAt x' y' := by
  unfold World.FindAt
  rw [World.roomAt_AddAt w x y s x' y' (World.roomAt_none_of_hasRoom hfree)]
  split_ifs <;> rfl

theorem World.hasRoom_AddAt (w : World) (x y : CInt) (s : String) (x' y' : CInt)
    (hfree : w.hasRoom x y = false) :
    (w.AddAt x y s).hasRoom x' y' = true ↔ w.hasRoom x' y' = true ∨ (x' = x ∧ y' = y) := by
  unfold World.hasRoom
  rw [World.FindAt_AddAt w x y s x' y' hfree]
  by_cases hc : x' = x ∧ y' = y
  · simp [hc]
  · simp [hc]

theorem World.isOpen_AddAt (w : World) (x y : CInt) (s : String) (x' y' : CInt)
    (d : String) (hfree : w.hasRoom x y = false) :
    (w.AddAt x y s).isOpen x' y' d = w.isOpen x' y' d := by
  have hnone := World.roomAt_none_of_hasRoom hfree
  unfold World.isOpen World.GetAt
  rw [World.roomAt_AddAt w x y s x' y' hnone]
  by_cases hc : x' = x ∧ y' = y
  · obtain ⟨rfl, rfl⟩ := hc
    simp [hnone, ROOM.closed, flagNamed]
  · rw [if_neg hc]

theorem World.roomCount_AddAt (w : World) (x y : CInt) (s : String)
    (hfree : w.hasRoom x y = false) : (w.AddAt x y s).roomCount = w.roomCount + 1 := by
  unfold World.hasRoom at hfree
  simp [World.AddAt, World.roomCount, hfree]

/-! ## The two behaviours, case by case -/

theorem MOB.createSwitch_cases (m : MOB) (r : Nat) :
    m.createSwitch r = (m.m_x, m.m_y.dec, "north", "south") ∨
    m.createSwitch r = (m.m_x, m.m_y.inc, "south", "north") ∨
    m.createSwitch r = (m.m_x.inc, m.m_y, "east", "west") ∨
    m.createSwitch r = (m.m_x.dec, m.m_y, "west", "east") := by
  have hlt : r % 4 < 4 := Nat.mod_lt r (by decide)
  unfold MOB.createSwitch
  generalize r % 4 = k at hlt
  interval_cases k <;> simp

theorem MOB.moveSwitch_cases (m : MOB) (n s e w : Bool) (r : Nat) :
    m.moveSwitch n s e w r = (m.m_x, m.m_y.dec, "north", "south", n) ∨
    m.moveSwitch n s e w r = (m.m_x, m.m_y.inc, "south", "north", s) ∨
    m.moveSwitch n s e w r = (m.m_x.inc, m.m_y, "east", "west", e) ∨
    m.moveSwitch n s e w r = (m.m_x.dec, m.m_y, "west", "east", w) := by
  have hlt : r % 4 < 4 := Nat.mod_lt r (by decide)
  unfold MOB.moveSwitch
  generalize r % 4 = k at hlt
  interval_cases k <;> simp

theorem MOB.Create_free (m : MOB) (h : SmallHandler) (r : Nat) {ny_x ny_y : CInt}
    {dir rdir : String} (hsw : m.createSwitch r = (ny_x, ny_y, dir, rdir))
    (hfree : h.GetWorld.hasRoom ny_x ny_y = false) :
    m.Create h r =
      ({ world := ((h.world.AddAt ny_x ny_y
                      ("A small cell (created by " ++ m.m_name ++ ")")).Open
                    m.m_x m.m_y dir).Open ny_x ny_y rdir,
         events := h.events ++
           [(m.m_x, m.m_y, m.m_name ++ " creates a cell to the " ++ dir ++ "\n")] ++
           [(m.m_x, m.m_y, m.m_name ++ " leaves " ++ dir ++ "\n")] },
       { m_x := ny_x, m_y := ny_y, m_name := m.m_name }) := by
  unfold World.hasRoom at hfree
  unfold MOB.Create
  rw [hsw]
  simp only [hfree, Bool.not_false, if_true]
  rfl

theorem MOB.Create_occupied (m : MOB) (h : SmallHandler) (r : Nat) {ny_x ny_y : CInt}
    {dir rdir : String} (hsw : m.createSwitch r = (ny_x, ny_y, dir, rdir))
    (hocc : h.GetWorld.hasRoom ny_x ny_y = true) :
    m.Create h r = (h, m) := by
  unfold World.hasRoom at hocc
  unfold MOB.Create
  rw [hsw]
  simp only [hocc, Bool.not_true, Bool.false_eq_true, if_false]

theorem MOB.Move_success (m : MOB) (h : SmallHandler) (r : Nat) {str : String}
    {n s e w : Bool} {ny_x ny_y : CInt} {dir rdir : String}
    (hget : h.GetWorld.GetAt m.m_x m.m_y = some (str, n, s, e, w))
    (hsw : m.moveSwitch n s e w r = (ny_x, ny_y, dir, rdir, true))
    (hroom : h.GetWorld.hasRoom ny_x ny_y = true) :
    m.Move h r =
      some ({ world := h.world,
              events := h.events ++ [(m.m_x, m.m_y, m.m_name ++ " leaves " ++ dir ++ "\n")] ++
                [(ny_x, ny_y, m.m_name ++ " enters from the " ++ rdir ++ "\n")] },
            { m_x := ny_x, m_y := ny_y, m_name := m.m_name }) := by
  unfold World.hasRoom at hroom
  unfold MOB.Move
  rw [hget]
  simp only
  rw [hsw]
  simp only [hroom, Bool.and_self, if_true]
  rfl

theorem MOB.Move_rejected (m : MOB) (h : SmallHandler) (r : Nat) {str : String}
    {n s e w : Bool} {ny_x ny_y : CInt} {dir rdir : String} {isOpen : Bool}
    (hget : h.GetWorld.GetAt m.m_x m.m_y = some (str, n, s, e, w))
    (hsw : m.moveSwitch n s e w r = (ny_x, ny_y, dir, rdir, isOpen))
    (hrej : isOpen = false ∨ h.GetWorld.hasRoom ny_x ny_y = false) :
    m.Move h r = some (h, m) := by
  unfold World.hasRoom at hrej
  unfold MOB.Move
  rw [hget]
  simp only
  rw [hsw]
  rcases hrej with hc | hc
  · simp [hc]
  · simp [hc]

theorem MOB.createSwitch_valid {m : MOB} {r : Nat} {ny_x ny_y : CInt} {dir rdir : String}
    (hsw : m.createSwitch r = (ny_x, ny_y, dir, rdir)) :
    flagNamed dir true true true true = true ∧ flagNamed rdir true true true true = true := by
  rcases MOB.createSwitch_cases m r with h | h | h | h <;>
    · rw [hsw] at h
      simp only [Prod.mk.injEq] at h
      obtain ⟨-, -, rfl, rfl⟩ := h
      exact ⟨by decide, by decide⟩

/-! ## Claims -/

/-- C1 (bidirectionality): whenever `Create` succeeds, that is, no room exists at the
candidate coordinate chosen by the draw, then right after `Create` the newly added room at
the candidate coordinate has its flag for the opposite direction open, and the room at the
mob's old position (when the mob stands in a room) has its flag for the chosen direction
open. -/
theorem MOB.Create_bidirectional (m : MOB) (h : SmallHandler) (r : Nat) (ny_x ny_y : CInt)
    (dir rdir : String) (hsw : m.createSwitch r = (ny_x, ny_y, dir, rdir))
    (hfree : h.GetWorld.FindAt ny_x ny_y = none) :
    (m.Create h r).1.GetWorld.isOpen ny_x ny_y rdir = true ∧
      (h.GetWorld.hasRoom m.m_x m.m_y = true →
        (m.Create h r).1.GetWorld.isOpen m.m_x m.m_y dir = true) := by
  have hfree2 : h.GetWorld.hasRoom ny_x ny_y = false := by
    unfold World.hasRoom; rw [hfree]; rfl
  obtain ⟨hv, hrv⟩ := MOB.createSwitch_valid hsw
  rw [MOB.Create_free m h r hsw hfree2]
  simp only [SmallHandler.GetWorld] at *
  constructor
  · rw [World.isOpen_Open]
    refine Or.inr ⟨rfl, rfl, ?_, rfl, hrv⟩
    rw [World.hasRoom_Open, World.hasRoom_AddAt _ _ _ _ _ _ hfree2]
    exact Or.inr ⟨rfl, rfl⟩
  · intro hroom
    rw [World.isOpen_Open]
    left
    rw [World.isOpen_Open]
    refine Or.inr ⟨rfl, rfl, ?_, rfl, hv⟩
    rw [World.hasRoom_AddAt _ _ _ _ _ _ hfree2]
    exact Or.inl hroom

/-- Witness of C1: the mob at `(0, 0)` of the single-room world digs east. -/
theorem MOB.Create_bidirectional_witness :
    sampleMob.createSwitch 2 = (1, 0, "east", "west") ∧
    startHandler.GetWorld.FindAt 1 0 = none ∧
    (sampleMob.Create startHandler 2).1.GetWorld.isOpen 1 0 "west" = true ∧
    startHandler.GetWorld.hasRoom sampleMob.m_x sampleMob.m_y = true ∧
    (sampleMob.Create startHandler 2).1.GetWorld.isOpen sampleMob.m_x sampleMob.m_y
      "east" = true :=
  ⟨by decide, by decide,
    (MOB.Create_bidirectional sampleMob startHandler 2 1 0 "east" "west" (by decide)
      (by decide)).1,
    by decide,
    (MOB.Create_bidirectional sampleMob startHandler 2 1 0 "east" "west" (by decide)
      (by decide)).2 (by decide)⟩

/-- C2 (no overwrite): when a room already exists at the candidate coordinate chosen by
the draw, `Create` leaves the world unchanged (same rooms, hence same room count and same
description and flags at every coordinate, the destination included), leaves the mob
unchanged and emits no broadcast. -/
theorem MOB.Create_no_overwrite (m : MOB) (h : SmallHandler) (r : Nat) (ny_x ny_y : CInt)
    (dir rdir : String) (hsw : m.createSwitch r = (ny_x, ny_y, dir, rdir))
    (hocc : (h.GetWorld.FindAt ny_x ny_y).isSome = true) :
    (m.Create h r).1.GetWorld = h.GetWorld ∧
      (m.Create h r).1.GetWorld.roomCount = h.GetWorld.roomCount ∧
      (∀ x y, (m.Create h r).1.GetWorld.FindAt x y = h.GetWorld.FindAt x y) ∧
      (∀ x y, (m.Create h r).1.GetWorld.GetAt x y = h.GetWorld.GetAt x y) ∧
      (m.Create h r).2 = m ∧
      (m.Create h r).1.events = h.events := by
  rw [MOB.Create_occupied m h r hsw hocc]
  exact ⟨rfl, rfl, fun _ _ => rfl, fun _ _ => rfl, rfl, rfl⟩

/-- Witness of C2: the mob at `(0, 0)` of the corridor tries to dig east, where `(1, 0)`
already is. -/
theorem MOB.Create_no_overwrite_witness :
    sampleMob.createSwitch 2 = (1, 0, "east", "west") ∧
    (corridorHandler.GetWorld.FindAt 1 0).isSome = true ∧
    (sampleMob.Create corridorHandler 2).1.GetWorld = corridorHandler.GetWorld ∧
    (sampleMob.Create corridorHandler 2).1.GetWorld.roomCount =
      corridorHandler.GetWorld.roomCount ∧
    (∀ x y, (sampleMob.Create corridorHandler 2).1.GetWorld.FindAt x y =
      corridorHandler.GetWorld.FindAt x y) ∧
    (∀ x y, (sampleMob.Create corridorHandler 2).1.GetWorld.GetAt x y =
      corridorHandler.GetWorld.GetAt x y) ∧
    (sampleMob.Create corridorHandler 2).2 = sampleMob ∧
    (sampleMob.Create corridorHandler 2).1.events = corridorHandler.events :=
  ⟨by decide, by decide,
    MOB.Create_no_overwrite sampleMob corridorHandler 2 1 0 "east" "west" (by decide)
      (by decide)⟩

/-- C3 (move consistency): when `Move` succeeds, that is, the mob stands in a room, the
flag of the direction chosen by the draw is open there and a room exists at the candidate
coordinate, then `Move` returns, the mob's position is the candidate coordinate, its name
is unchanged, and the world grid is unchanged (no room added, no description or flag
modified). -/
theorem MOB.Move_consistent (m : MOB) (h : SmallHandler) (r : Nat) (str : String)
    (n s e w : Bool) (ny_x ny_y : CInt) (dir rdir : String)
    (hget : h.GetWorld.GetAt m.m_x m.m_y = some (str, n, s, e, w))
    (hsw : m.moveSwitch n s e w r = (ny_x, ny_y, dir, rdir, true))
    (hroom : (h.GetWorld.FindAt ny_x ny_y).isSome = true) :
    ∃ h1 m1, m.Move h r = some (h1, m1) ∧ m1.m_x = ny_x ∧ m1.m_y = ny_y ∧
      m1.m_name = m.m_name ∧ h1.GetWorld = h.GetWorld ∧
      h1.GetWorld.roomCount = h.GetWorld.roomCount :=
  ⟨_, _, MOB.Move_success m h r hget hsw hroom, rfl, rfl, rfl, rfl, rfl⟩

/-- Witness of C3: the mob at `(0, 0)` of the corridor walks east. -/
theorem MOB.Move_consistent_witness :
    corridorHandler.GetWorld.GetAt sampleMob.m_x sampleMob.m_y =
      some ("start", false, false, true, false) ∧
    sampleMob.moveSwitch false false true false 2 = (1, 0, "east", "west", true) ∧
    (corridorHandler.GetWorld.FindAt 1 0).isSome = true ∧
    ∃ h1 m1, sampleMob.Move corridorHandler 2 = some (h1, m1) ∧ m1.m_x = 1 ∧ m1.m_y = 0 ∧
      m1.m_name = sampleMob.m_name ∧ h1.GetWorld = corridorHandler.GetWorld ∧
      h1.GetWorld.roomCount = corridorHandler.GetWorld.roomCount :=
  ⟨by decide, by decide, by decide,
    MOB.Move_consistent sampleMob corridorHandler 2 "start" false false true false 1 0
      "east" "west" (by decide) (by decide) (by decide)⟩

/-- C4 (move rejection): for a mob standing in a room, if the flag of the direction chosen
by the draw is closed at that room, or no room exists at the candidate coordinate, then
`Move` returns with the mob unchanged (same position), the world unchanged and no
broadcast emitted. -/
theorem MOB.Move_rejection (m : MOB) (h : SmallHandler) (r : Nat) (str : String)
    (n s e w : Bool) (ny_x ny_y : CInt) (dir rdir : String) (isOpen : Bool)
    (hget : h.GetWorld.GetAt m.m_x m.m_y = some (str, n, s, e, w))
    (hsw : m.moveSwitch n s e w r = (ny_x, ny_y, dir, rdir, isOpen))
    (hrej : isOpen = false ∨ h.GetWorld.FindAt ny_x ny_y = none) :
    ∃ h1 m1, m.Move h r = some (h1, m1) ∧ m1 = m ∧ h1.GetWorld = h.GetWorld ∧
      h1.events = h.events := by
  refine ⟨h, m, MOB.Move_rejected m h r hget hsw ?_, rfl, rfl, rfl⟩
  rcases hrej with hc | hc
  · exact Or.inl hc
  · right
    unfold World.hasRoom
    rw [hc]
    rfl

/-- Witness of C4: the mob at `(0, 0)` of the corridor tries to walk north, which is
closed and where no room is. -/
theorem MOB.Move_rejection_witness :
    corridorHandler.GetWorld.GetAt sampleMob.m_x sampleMob.m_y =
      some ("start", false, false, true, false) ∧
    sampleMob.moveSwitch false false true false 0 =
      (0, CInt.ofInt (-1), "north", "south", false) ∧
    (false = false ∨ corridorHandler.GetWorld.FindAt 0 (CInt.ofInt (-1)) = none) ∧
    ∃ h1 m1, sampleMob.Move corridorHandler 0 = some (h1, m1) ∧ m1 = sampleMob ∧
      h1.GetWorld = corridorHandler.GetWorld ∧ h1.events = corridorHandler.events :=
  ⟨by decide, by decide, by decide,
    MOB.Move_rejection sampleMob corridorHandler 0 "start" false false true false 0
      (CInt.ofInt (-1)) "north" "south" false (by decide) (by decide) (by decide)⟩

/-! ## Directions and the invariants -/

theorem Dir.name_valid (d : Dir) : flagNamed d.name true true true true = true := by
  cases d <;> decide

theorem Dir.name_inj {d d' : Dir} (h : d.name = d'.name) : d = d' := by
  cases d <;> cases d' <;> first | rfl | (exact absurd h (by decide))

theorem Dir.opposite_opposite (d : Dir) : d.opposite.opposite = d := by
  cases d <;> rfl

theorem Dir.opposite_ne (d : Dir) : d.opposite ≠ d := by
  cases d <;> decide

theorem Dir.step_back (d : Dir) (x y : CInt) :
    d.opposite.stepX (d.stepX x) = x ∧ d.opposite.stepY (d.stepY y) = y := by
  cases d <;> simp [Dir.opposite, Dir.stepX, Dir.stepY, CInt.inc_dec, CInt.dec_inc]

theorem Dir.step_ne (d : Dir) (x y : CInt) : ¬ (d.stepX x = x ∧ d.stepY y = y) := by
  cases d <;> simp [Dir.stepX, Dir.stepY, CInt.inc_ne, CInt.dec_ne]

theorem MOB.createSwitch_dir (m : MOB) (r : Nat) :
    ∃ d : Dir, m.createSwitch r = (d.stepX m.m_x, d.stepY m.m_y, d.name, d.opposite.name) := by
  rcases MOB.createSwitch_cases m r with h | h | h | h
  · exact ⟨Dir.north, h⟩
  · exact ⟨Dir.south, h⟩
  · exact ⟨Dir.east, h⟩
  · exact ⟨Dir.west, h⟩

theorem World.Reciprocal_iff (w : World) :
    w.Reciprocal ↔ ∀ (x y : CInt) (d : Dir), w.isOpen x y d.name = true →
      w.hasRoom (d.stepX x) (d.stepY y) = true →
      w.isOpen (d.stepX x) (d.stepY y) d.opposite.name = true := by
  constructor
  · intro h x y d
    obtain ⟨h1, h2, h3, h4⟩ := h x y
    cases d
    · exact h1
    · exact h2
    · exact h3
    · exact h4
  · intro h x y
    exact ⟨h x y Dir.north, h x y Dir.south, h x y Dir.east, h x y Dir.west⟩

theorem World.NoDangling_iff (w : World) :
    w.NoDangling ↔ ∀ (x y : CInt) (d : Dir), w.isOpen x y d.name = true →
      w.hasRoom (d.stepX x) (d.stepY y) = true := by
  constructor
  · intro h x y d
    obtain ⟨h1, h2, h3, h4⟩ := h x y
    cases d
    · exact h1
    · exact h2
    · exact h3
    · exact h4
  · intro h x y
    exact ⟨h x y Dir.north, h x y Dir.south, h x y Dir.east, h x y Dir.west⟩

/-! ## The world after a successful `Create` -/

theorem MOB.Create_hasRoom_iff (m : MOB) (h : SmallHandler) (r : Nat) {ny_x ny_y : CInt}
    {dir rdir : String} (hsw : m.createSwitch r = (ny_x, ny_y, dir, rdir))
    (hfree : h.GetWorld.hasRoom ny_x ny_y = false) (x y : CInt) :
    (m.Create h r).1.GetWorld.hasRoom x y = true ↔
      h.GetWorld.hasRoom x y = true ∨ (x = ny_x ∧ y = ny_y) := by
  rw [MOB.Create_free m h r hsw hfree]
  simp only [SmallHandler.GetWorld] at *
  rw [World.hasRoom_Open, World.hasRoom_Open, World.hasRoom_AddAt _ _ _ _ _ _ hfree]

theorem MOB.Create_isOpen_iff (m : MOB) (h : SmallHandler) (r : Nat) (d : Dir)
    (hsw : m.createSwitch r = (d.stepX m.m_x, d.stepY m.m_y, d.name, d.opposite.name))
    (hfree : h.GetWorld.hasRoom (d.stepX m.m_x) (d.stepY m.m_y) = false) (x y : CInt)
    (s : String) :
    (m.Create h r).1.GetWorld.isOpen x y s = true ↔
      h.GetWorld.isOpen x y s = true ∨
      (x = m.m_x ∧ y = m.m_y ∧ h.GetWorld.hasRoom m.m_x m.m_y = true ∧ s = d.name) ∨
      (x = d.stepX m.m_x ∧ y = d.stepY m.m_y ∧ s = d.opposite.name) := by
  rw [MOB.Create_free m h r hsw hfree]
  simp only [SmallHandler.GetWorld] at *
  rw [World.isOpen_Open, World.isOpen_Open, World.hasRoom_Open,
    World.hasRoom_AddAt _ _ _ _ _ _ hfree, World.hasRoom_AddAt _ _ _ _ _ _ hfree,
    World.isOpen_AddAt _ _ _ _ _ _ _ hfree]
  have hv := Dir.name_valid d
  have hrv := Dir.name_valid d.opposite
  have hne := Dir.step_ne d m.m_x m.m_y
  constructor
  · rintro ((ho | ⟨hx, hy, hr | hr, hs, -⟩) | ⟨hx, hy, -, hs, -⟩)
    · exact Or.inl ho
    · exact Or.inr (Or.inl ⟨hx, hy, hr, hs⟩)
    · exact absurd ⟨hr.1.symm, hr.2.symm⟩ hne
    · exact Or.inr (Or.inr ⟨hx, hy, hs⟩)
  · rintro (ho | ⟨hx, hy, hr, hs⟩ | ⟨hx, hy, hs⟩)
    · exact Or.inl (Or.inl ho)
    · exact Or.inl (Or.inr ⟨hx, hy, Or.inl hr, hs, hv⟩)
    · exact Or.inr ⟨hx, hy, Or.inr ⟨rfl, rfl⟩, hs, hrv⟩

/-! ## Preservation of the invariants by `Create` -/

theorem MOB.Create_world_cases (m : MOB) (h : SmallHandler) (r : Nat) :
    (m.Create h r = (h, m)) ∨
    ∃ d : Dir, m.createSwitch r = (d.stepX m.m_x, d.stepY m.m_y, d.name, d.opposite.name) ∧
      h.GetWorld.hasRoom (d.stepX m.m_x) (d.stepY m.m_y) = false ∧
      (m.Create h r).2 = { m_x := d.stepX m.m_x, m_y := d.stepY m.m_y, m_name := m.m_name } := by
  obtain ⟨d, hd⟩ := MOB.createSwitch_dir m r
  cases hfree : h.GetWorld.hasRoom (d.stepX m.m_x) (d.stepY m.m_y) with
  | true => exact Or.inl (MOB.Create_occupied m h r hd hfree)
  | false =>
    refine Or.inr ⟨d, hd, hfree, ?_⟩
    rw [MOB.Create_free m h r hd hfree]

theorem MOB.Create_hasRoom_mono (m : MOB) (h : SmallHandler) (r : Nat) (x y : CInt)
    (hr : h.GetWorld.hasRoom x y = true) : (m.Create h r).1.GetWorld.hasRoom x y = true := by
  rcases MOB.Create_world_cases m h r with hc | ⟨d, hd, hfree, -⟩
  · rw [hc]; exact hr
  · exact (MOB.Create_hasRoom_iff m h r hd hfree x y).2 (Or.inl hr)

theorem MOB.Create_Reciprocal (m : MOB) (h : SmallHandler) (r : Nat)
    (hrec : h.GetWorld.Reciprocal) (hnd : h.GetWorld.NoDangling) :
    (m.Create h r).1.GetWorld.Reciprocal := by
  rcases MOB.Create_world_cases m h r with hc | ⟨d, hd, hfree, -⟩
  · rw [hc]; exact hrec
  rw [World.Reciprocal_iff] at hrec ⊢
  rw [World.NoDangling_iff] at hnd
  intro x y e ho hr
  rw [MOB.Create_isOpen_iff m h r d hd hfree] at ho ⊢
  rw [MOB.Create_hasRoom_iff m h r hd hfree] at hr
  rcases ho with ho | ⟨hx, hy, hroom, hs⟩ | ⟨hx, hy, hs⟩
  · exact Or.inl (hrec x y e ho (hnd x y e ho))
  · have he : e = d := Dir.name_inj hs
    subst he
    subst hx
    subst hy
    exact Or.inr (Or.inr ⟨rfl, rfl, rfl⟩)
  · have he : e = d.opposite := Dir.name_inj hs
    subst he
    subst hx
    subst hy
    obtain ⟨hbx, hby⟩ := Dir.step_back d m.m_x m.m_y
    rw [hbx, hby] at hr ⊢
    rw [Dir.opposite_opposite]
    rcases hr with hr | hr
    · exact Or.inr (Or.inl ⟨rfl, rfl, hr, rfl⟩)
    · exact absurd ⟨hr.1.symm, hr.2.symm⟩ (Dir.step_ne d m.m_x m.m_y)

theorem MOB.Create_NoDangling (m : MOB) (h : SmallHandler) (r : Nat)
    (hnd : h.GetWorld.NoDangling) (hin : h.GetWorld.hasRoom m.m_x m.m_y = true) :
    (m.Create h r).1.GetWorld.NoDangling := by
  rcases MOB.Create_world_cases m h r with hc | ⟨d, hd, hfree, -⟩
  · rw [hc]; exact hnd
  rw [World.NoDangling_iff] at hnd ⊢
  intro x y e ho
  rw [MOB.Create_isOpen_iff m h r d hd hfree] at ho
  rw [MOB.Create_hasRoom_iff m h r hd hfree]
  rcases ho with ho | ⟨hx, hy, -, hs⟩ | ⟨hx, hy, hs⟩
  · exact Or.inl (hnd x y e ho)
  · have he : e = d := Dir.name_inj hs
    subst he
    subst hx
    subst hy
    exact Or.inr ⟨rfl, rfl⟩
  · have he : e = d.opposite := Dir.name_inj hs
    subst he
    subst hx
    subst hy
    obtain ⟨hbx, hby⟩ := Dir.step_back d m.m_x m.m_y
    rw [hbx, hby]
    exact Or.inl hin

theorem MOB.Create_name (m : MOB) (h : SmallHandler) (r : Nat) :
    (m.Create h r).2.m_name = m.m_name := by
  rcases MOB.Create_world_cases m h r with hc | ⟨d, -, -, hm⟩
  · rw [hc]
  · rw [hm]

theorem MOB.Create_inRoom (m : MOB) (h : SmallHandler) (r : Nat)
    (hin : h.GetWorld.hasRoom m.m_x m.m_y = true) :
    (m.Create h r).1.GetWorld.hasRoom (m.Create h r).2.m_x (m.Create h r).2.m_y = true := by
  rcases MOB.Create_world_cases m h r with hc | ⟨d, hd, hfree, hm⟩
  · rw [hc]; exact hin
  · rw [MOB.Create_hasRoom_iff m h r hd hfree, hm]
    exact Or.inr ⟨rfl, rfl⟩

/-! ## `Move`, case by case -/

theorem World.GetAt_isSome_of_hasRoom {w : World} {x y : CInt} (h : w.hasRoom x y = true) :
    ∃ str n s e w', w.GetAt x y = some (str, n, s, e, w') := by
  obtain ⟨r, hr⟩ := (World.hasRoom_iff_roomAt w x y).1 h
  exact ⟨r.desc, r.n, r.s, r.e, r.w, by unfold World.GetAt; rw [hr]; rfl⟩

theorem World.hasRoom_of_GetAt {w : World} {x y : CInt} {t : String × Bool × Bool × Bool × Bool}
    (h : w.GetAt x y = some t) : w.hasRoom x y = true := by
  unfold World.GetAt at h
  rw [World.hasRoom_iff_roomAt]
  cases hq : w.roomAt x y with
  | none => rw [hq] at h; simp at h
  | some r => exact ⟨r, rfl⟩

theorem MOB.Move_cases (m : MOB) (h : SmallHandler) (r : Nat) (h1 : SmallHandler) (m1 : MOB)
    (hmove : m.Move h r = some (h1, m1)) :
    h.GetWorld.hasRoom m.m_x m.m_y = true ∧ h1.GetWorld = h.GetWorld ∧
      m1.m_name = m.m_name ∧ h1.GetWorld.hasRoom m1.m_x m1.m_y = true ∧
      (m1 = m ∨ ∃ d : Dir, m1.m_x = d.stepX m.m_x ∧ m1.m_y = d.stepY m.m_y ∧
        h.GetWorld.isOpen m.m_x m.m_y d.name = true) := by
  cases hget : h.GetWorld.GetAt m.m_x m.m_y with
  | none =>
    unfold MOB.Move at hmove
    rw [hget] at hmove
    simp at hmove
  | some t =>
    obtain ⟨str, n, s, e, w⟩ := t
    have hin := World.hasRoom_of_GetAt hget
    have hopen : ∀ dn, h.GetWorld.isOpen m.m_x m.m_y dn = flagNamed dn n s e w := by
      intro dn
      unfold World.isOpen
      rw [hget]
    obtain ⟨ny_x, ny_y, dir, rdir, isOpen, hsw⟩ :
        ∃ ny_x ny_y dir rdir isOpen, m.moveSwitch n s e w r = (ny_x, ny_y, dir, rdir, isOpen) :=
      ⟨_, _, _, _, _, rfl⟩
    by_cases hgo : isOpen = true ∧ h.GetWorld.hasRoom ny_x ny_y = true
    · obtain ⟨ho, hroom⟩ := hgo
      subst ho
      rw [MOB.Move_success m h r hget hsw hroom] at hmove
      simp only [Option.some.injEq, Prod.mk.injEq] at hmove
      obtain ⟨rfl, rfl⟩ := hmove
      refine ⟨hin, rfl, rfl, hroom, Or.inr ?_⟩
      rcases MOB.moveSwitch_cases m n s e w r with hc | hc | hc | hc <;>
        rw [hsw] at hc <;> simp only [Prod.mk.injEq] at hc <;>
        obtain ⟨rfl, rfl, -, -, hf⟩ := hc
      · exact ⟨Dir.north, rfl, rfl, by rw [hopen, ← hf]; rfl⟩
      · exact ⟨Dir.south, rfl, rfl, by rw [hopen, ← hf]; rfl⟩
      · exact ⟨Dir.east, rfl, rfl, by rw [hopen, ← hf]; rfl⟩
      · exact ⟨Dir.west, rfl, rfl, by rw [hopen, ← hf]; rfl⟩
    · have hrej : isOpen = false ∨ h.GetWorld.hasRoom ny_x ny_y = false := by
        by_cases ho : isOpen = true
        · right
          by_contra hc
          exact hgo ⟨ho, by simpa using hc⟩
        · left; simpa using ho
      rw [MOB.Move_rejected m h r hget hsw hrej] at hmove
      simp only [Option.some.injEq, Prod.mk.injEq] at hmove
      obtain ⟨rfl, rfl⟩ := hmove
      exact ⟨hin, rfl, rfl, hin, Or.inl rfl⟩

theorem MOB.Move_isSome (m : MOB) (h : SmallHandler) (r : Nat)
    (hin : h.GetWorld.hasRoom m.m_x m.m_y = true) : ∃ h1 m1, m.Move h r = some (h1, m1) := by
  obtain ⟨str, n, s, e, w, hget⟩ := World.GetAt_isSome_of_hasRoom hin
  unfold MOB.Move
  rw [hget]
  simp only
  split
  · exact ⟨_, _, rfl⟩
  · exact ⟨_, _, rfl⟩

/-! ## The factory operations, case by case -/

theorem World.GetRandomLocation_hasRoom {w : World} {r : Nat} {x y : CInt} {d : String}
    (h : w.GetRandomLocation r = some (x, y, d)) : w.hasRoom x y = true := by
  unfold World.GetRandomLocation at h
  split_ifs at h with hlen
  simp only [Option.some.injEq, Prod.mk.injEq] at h
  obtain ⟨hx, hy, -⟩ := h
  have hmem : w.rooms.get ⟨r % w.rooms.length, Nat.mod_lt r hlen⟩ ∈ w.rooms :=
    List.get_mem _ _ _
  unfold World.hasRoom World.FindAt World.roomAt
  rw [Option.isSome_map', List.find?_isSome]
  exact ⟨_, hmem, (ROOM.isAt_iff _ _ _).2 ⟨hx, hy⟩⟩

theorem World.GetRandomLocation_isSome {w : World} (r : Nat) (h : w.rooms ≠ []) :
    ∃ x y d, w.GetRandomLocation r = some (x, y, d) := by
  have hlen : 0 < w.rooms.length := List.length_pos.2 h
  unfold World.GetRandomLocation
  rw [dif_pos hlen]
  exact ⟨_, _, _, rfl⟩

theorem World.rooms_ne_nil_of_hasRoom {w : World} {x y : CInt} (h : w.hasRoom x y = true) :
    w.rooms ≠ [] := by
  intro hnil
  unfold World.hasRoom World.FindAt World.roomAt at h
  rw [hnil] at h
  simp at h

theorem MobFactory.Spawn_cases (f : MobFactory) (rLoc rBeg rEnd : Nat) (f1 : MobFactory)
    (hs : f.Spawn rLoc rBeg rEnd = some f1) :
    ∃ x y d, f.m_handler.GetWorld.GetRandomLocation rLoc = some (x, y, d) ∧
      f1 = { m_handler :=
               { world := f.m_handler.world,
                 events := f.m_handler.events ++
                   [(x, y, MobFactory.spawnName rBeg rEnd ++ " enters the world\n")] },
             m_mobs := f.m_mobs ++
               [{ m_x := x, m_y := y, m_name := MobFactory.spawnName rBeg rEnd }] } := by
  unfold MobFactory.Spawn at hs
  cases hq : f.m_handler.GetWorld.GetRandomLocation rLoc with
  | none => rw [hq] at hs; simp at hs
  | some t =>
    obtain ⟨x, y, d⟩ := t
    rw [hq] at hs
    simp only [Option.some.injEq] at hs
    exact ⟨x, y, d, rfl, hs.symm⟩

theorem MobFactory.Spawn_isSome (f : MobFactory) (rLoc rBeg rEnd : Nat)
    (h : f.m_handler.GetWorld.rooms ≠ []) : ∃ f1, f.Spawn rLoc rBeg rEnd = some f1 := by
  obtain ⟨x, y, d, hq⟩ := World.GetRandomLocation_isSome rLoc h
  unfold MobFactory.Spawn
  rw [hq]
  exact ⟨_, rfl⟩

theorem MobFactory.RandomAction_cases (f : MobFactory) (rMob rAct rDir : Nat)
    (f1 : MobFactory) (hs : f.RandomAction rMob rAct rDir = some f1) :
    ∃ p, f.m_mobs[rMob % f.m_mobs.length]? = some p ∧
      ((rAct % 10 = 0 ∧
          f1 = { m_handler := (p.Create f.m_handler rDir).1,
                 m_mobs := f.m_mobs.set (rMob % f.m_mobs.length)
                   (p.Create f.m_handler rDir).2 }) ∨
        (rAct % 10 ≠ 0 ∧ ∃ h1 p1, p.Move f.m_handler rDir = some (h1, p1) ∧
          f1 = { m_handler := h1,
                 m_mobs := f.m_mobs.set (rMob % f.m_mobs.length) p1 })) := by
  unfold MobFactory.RandomAction at hs
  split_ifs at hs with hsz
  have hlt : rMob % f.m_mobs.length < f.m_mobs.length := Nat.mod_lt rMob hsz
  refine ⟨f.m_mobs.get ⟨rMob % f.m_mobs.length, hlt⟩, ?_, ?_⟩
  · rw [List.getElem?_eq_getElem hlt]
    rfl
  · simp only at hs
    split at hs
    · rename_i h0
      simp only [Option.some.injEq] at hs
      exact Or.inl ⟨h0, hs.symm⟩
    · rename_i h0
      right
      refine ⟨h0, ?_⟩
      split at hs
      · simp at hs
      · rename_i h1 p1 hmv
        simp only [Option.some.injEq] at hs
        exact ⟨h1, p1, hmv, hs.symm⟩

theorem MobFactory.RandomAction_isSome (f : MobFactory) (rMob rAct rDir : Nat)
    (hne : f.m_mobs ≠ []) (hin : f.MobsInRooms) :
    ∃ f1, f.RandomAction rMob rAct rDir = some f1 := by
  have hsz : 0 < f.m_mobs.length := List.length_pos.2 hne
  have hlt : rMob % f.m_mobs.length < f.m_mobs.length := Nat.mod_lt rMob hsz
  have hmem : f.m_mobs.get ⟨rMob % f.m_mobs.length, hlt⟩ ∈ f.m_mobs := List.get_mem _ _ _
  obtain ⟨h1, m1, hmv⟩ := MOB.Move_isSome _ f.m_handler rDir (hin _ hmem)
  unfold MobFactory.RandomAction
  rw [dif_pos hsz]
  simp only
  split
  · exact ⟨_, rfl⟩
  · rw [hmv]
    exact ⟨_, rfl⟩

/-! ## Invariants along calls -/

theorem MobFactory.set_MobsInRooms {l : List MOB} {w w1 : World} {i : Nat} {p1 : MOB}
    (hmono : ∀ x y, w.hasRoom x y = true → w1.hasRoom x y = true)
    (hl : ∀ m ∈ l, w.hasRoom m.m_x m.m_y = true) (hp : w1.hasRoom p1.m_x p1.m_y = true) :
    ∀ m ∈ l.set i p1, w1.hasRoom m.m_x m.m_y = true := by
  intro m hm
  rcases List.mem_or_eq_of_mem_set hm with hm | rfl
  · exact hmono _ _ (hl m hm)
  · exact hp

theorem MobFactory.call_MobsInRooms (f : MobFactory) (c : Call) (f1 : MobFactory)
    (hin : f.MobsInRooms) (hc : f.call c = some f1) : f1.MobsInRooms := by
  cases c with
  | spawn rLoc rBeg rEnd =>
    obtain ⟨x, y, d, hloc, rfl⟩ := MobFactory.Spawn_cases f rLoc rBeg rEnd f1 hc
    intro m hm
    rcases List.mem_append.1 hm with hm | hm
    · exact hin m hm
    · rw [List.mem_singleton] at hm
      subst hm
      exact World.GetRandomLocation_hasRoom hloc
  | randomAction rMob rAct rDir =>
    obtain ⟨p, hp, hcase⟩ := MobFactory.RandomAction_cases f rMob rAct rDir f1 hc
    have hpin : f.m_handler.GetWorld.hasRoom p.m_x p.m_y = true :=
      hin p (List.getElem?_mem hp)
    rcases hcase with ⟨-, rfl⟩ | ⟨-, h1, p1, hmv, rfl⟩
    · exact MobFactory.set_MobsInRooms (MOB.Create_hasRoom_mono p f.m_handler rDir) hin
        (MOB.Create_inRoom p f.m_handler rDir hpin)
    · obtain ⟨-, hw, -, hp1, -⟩ := MOB.Move_cases p f.m_handler rDir h1 p1 hmv
      refine MobFactory.set_MobsInRooms ?_ hin hp1
      intro x y hxy
      rw [hw]
      exact hxy

theorem MobFactory.call_length (f : MobFactory) (c : Call) (f1 : MobFactory)
    (hc : f.call c = some f1) : f.m_mobs.length ≤ f1.m_mobs.length := by
  cases c with
  | spawn rLoc rBeg rEnd =>
    obtain ⟨x, y, d, -, rfl⟩ := MobFactory.Spawn_cases f rLoc rBeg rEnd f1 hc
    simp
  | randomAction rMob rAct rDir =>
    obtain ⟨p, -, hcase⟩ := MobFactory.RandomAction_cases f rMob rAct rDir f1 hc
    rcases hcase with ⟨-, rfl⟩ | ⟨-, h1, p1, -, rfl⟩ <;> simp

theorem MobFactory.call_isSome (f : MobFactory) (c : Call) (hne : f.m_mobs ≠ [])
    (hin : f.MobsInRooms) : ∃ f1, f.call c = some f1 := by
  cases c with
  | spawn rLoc rBeg rEnd =>
    obtain ⟨m, hm⟩ := List.exists_mem_of_ne_nil _ hne
    exact MobFactory.Spawn_isSome f rLoc rBeg rEnd (World.rooms_ne_nil_of_hasRoom (hin m hm))
  | randomAction rMob rAct rDir =>
    exact MobFactory.RandomAction_isSome f rMob rAct rDir hne hin

theorem MobFactory.call_Reciprocal (f : MobFactory) (c : Call) (f1 : MobFactory)
    (hrec : f.m_handler.GetWorld.Reciprocal) (hnd : f.m_handler.GetWorld.NoDangling)
    (hc : f.call c = some f1) : f1.m_handler.GetWorld.Reciprocal := by
  cases c with
  | spawn rLoc rBeg rEnd =>
    obtain ⟨x, y, d, -, rfl⟩ := MobFactory.Spawn_cases f rLoc rBeg rEnd f1 hc
    exact hrec
  | randomAction rMob rAct rDir =>
    obtain ⟨p, -, hcase⟩ := MobFactory.RandomAction_cases f rMob rAct rDir f1 hc
    rcases hcase with ⟨-, rfl⟩ | ⟨-, h1, p1, hmv, rfl⟩
    · exact MOB.Create_Reciprocal p f.m_handler rDir hrec hnd
    · obtain ⟨-, hw, -⟩ := MOB.Move_cases p f.m_handler rDir h1 p1 hmv
      show h1.GetWorld.Reciprocal
      rw [hw]
      exact hrec

theorem MobFactory.call_NoDangling (f : MobFactory) (c : Call) (f1 : MobFactory)
    (hnd : f.m_handler.GetWorld.NoDangling) (hin : f.MobsInRooms)
    (hc : f.call c = some f1) : f1.m_handler.GetWorld.NoDangling := by
  cases c with
  | spawn rLoc rBeg rEnd =>
    obtain ⟨x, y, d, -, rfl⟩ := MobFactory.Spawn_cases f rLoc rBeg rEnd f1 hc
    exact hnd
  | randomAction rMob rAct rDir =>
    obtain ⟨p, hp, hcase⟩ := MobFactory.RandomAction_cases f rMob rAct rDir f1 hc
    rcases hcase with ⟨-, rfl⟩ | ⟨-, h1, p1, hmv, rfl⟩
    · exact MOB.Create_NoDangling p f.m_handler rDir hnd (hin p (List.getElem?_mem hp))
    · obtain ⟨-, hw, -⟩ := MOB.Move_cases p f.m_handler rDir h1 p1 hmv
      show h1.GetWorld.NoDangling
      rw [hw]
      exact hnd

theorem MobFactory.run_invariants (f : MobFactory) (cs : List Call) (f1 : MobFactory)
    (hrec : f.m_handler.GetWorld.Reciprocal) (hnd : f.m_handler.GetWorld.NoDangling)
    (hin : f.MobsInRooms) (hrun : f.run cs = some f1) :
    f1.m_handler.GetWorld.Reciprocal ∧ f1.m_handler.GetWorld.NoDangling ∧
      f1.MobsInRooms := by
  induction cs generalizing f with
  | nil =>
    simp only [MobFactory.run, Option.some.injEq] at hrun
    subst hrun
    exact ⟨hrec, hnd, hin⟩
  | cons c cs ih =>
    unfold MobFactory.run at hrun
    cases hc : f.call c with
    | none => rw [hc] at hrun; simp at hrun
    | some f2 =>
      rw [hc] at hrun
      exact ih f2 (MobFactory.call_Reciprocal f c f2 hrec hnd hc)
        (MobFactory.call_NoDangling f c f2 hnd hin hc)
        (MobFactory.call_MobsInRooms f c f2 hin hc) hrun

theorem MobFactory.run_MobsInRooms (f : MobFactory) (cs : List Call) (hne : f.m_mobs ≠ [])
    (hin : f.MobsInRooms) :
    ∃ f1, f.run cs = some f1 ∧ f1.MobsInRooms ∧ f.m_mobs.length ≤ f1.m_mobs.length := by
  induction cs generalizing f with
  | nil => exact ⟨f, rfl, hin, le_refl _⟩
  | cons c cs ih =>
    obtain ⟨f2, hc⟩ := MobFactory.call_isSome f c hne hin
    have hlen := MobFactory.call_length f c f2 hc
    have hne2 : f2.m_mobs ≠ [] := by
      intro h0
      rw [h0] at hlen
      exact hne (List.length_eq_zero.1 (Nat.le_zero.1 hlen))
    obtain ⟨f1, hrun, hin1, hlen1⟩ :=
      ih f2 hne2 (MobFactory.call_MobsInRooms f c f2 hin hc)
    refine ⟨f1, ?_, hin1, le_trans hlen hlen1⟩
    unfold MobFactory.run
    rw [hc]
    exact hrun

/-! ## Sample states and the invariants -/

theorem flagNamed_false (d : String) : flagNamed d false false false false = false := by
  unfold flagNamed
  split_ifs <;> rfl

theorem startWorld_isOpen (x y : CInt) (d : String) : startWorld.isOpen x y d = false := by
  rw [Bool.eq_false_iff]
  intro h
  obtain ⟨r, hr, hf⟩ := (World.isOpen_iff _ _ _ _).1 h
  have hmem := List.mem_of_find?_eq_some hr
  simp only [startWorld, List.mem_singleton] at hmem
  subst hmem
  simp [ROOM.closed, flagNamed_false] at hf

theorem startWorld_Reciprocal : startWorld.Reciprocal := by
  intro x y
  simp [startWorld_isOpen]

theorem startWorld_NoDangling : startWorld.NoDangling := by
  intro x y
  simp [startWorld_isOpen]

theorem gapWorld_isOpen (x y : CInt) (d : String)
    (h : gapHandler.GetWorld.isOpen x y d = true) : x = 2 ∧ y = 0 ∧ d = "west" := by
  obtain ⟨r, hr, hf⟩ := (World.isOpen_iff _ _ _ _).1 h
  obtain ⟨hx, hy⟩ := World.roomAt_isAt hr
  have hmem := List.mem_of_find?_eq_some hr
  simp only [gapHandler, SmallHandler.GetWorld, List.mem_cons, List.mem_singleton,
    List.mem_nil_iff, or_false] at hmem
  rcases hmem with rfl | rfl
  · simp [ROOM.closed, flagNamed_false] at hf
  · refine ⟨hx.symm, hy.symm, ?_⟩
    unfold flagNamed at hf
    split_ifs at hf with h1 h2 h3 h4
    exact h4

/-! ## Claims, continued -/

/-- Counterexample to C5 as stated: in the world with rooms `(0, 0)` (all closed) and
`(2, 0)` (west open, toward the empty `(1, 0)`) the reciprocal invariant holds and the mob
stands in a room, yet after the mob at `(0, 0)` creates the room `(1, 0)` to the east the
invariant fails: `(2, 0)` is open toward `(1, 0)`, which is not open back. -/
theorem MOB.Create_breaks_Reciprocal :
    gapHandler.GetWorld.Reciprocal ∧
    gapHandler.GetWorld.hasRoom sampleMob.m_x sampleMob.m_y = true ∧
    ¬ (sampleMob.Create gapHandler 2).1.GetWorld.Reciprocal := by
  refine ⟨?_, by decide, ?_⟩
  · intro x y
    refine ⟨?_, ?_, ?_, ?_⟩
    · intro ho _
      exact absurd (gapWorld_isOpen x y _ ho).2.2 (by decide)
    · intro ho _
      exact absurd (gapWorld_isOpen x y _ ho).2.2 (by decide)
    · intro ho _
      exact absurd (gapWorld_isOpen x y _ ho).2.2 (by decide)
    · intro ho hr
      obtain ⟨rfl, rfl, -⟩ := gapWorld_isOpen x y _ ho
      exact absurd hr (by decide)
  · intro hrec
    have h := (hrec 2 0).2.2.2 (by decide) (by decide)
    exact absurd h (by decide)

/-- C5, amended (reciprocal-connection invariant): starting from any state in which the
reciprocal invariant holds and every open flag of an existing room points at a coordinate
where a room exists, the reciprocal invariant still holds after every `Spawn`, `Move` and
`Create`; if moreover every mob stands in a room, the three properties hold after any
sequence of `Spawn` and `RandomAction` calls, and with at least one mob every such sequence
runs to its end. -/
theorem MobFactory.Reciprocal_preserved (f : MobFactory)
    (hrec : f.m_handler.GetWorld.Reciprocal) (hnd : f.m_handler.GetWorld.NoDangling) :
    (∀ rLoc rBeg rEnd f1, f.Spawn rLoc rBeg rEnd = some f1 →
        f1.m_handler.GetWorld.Reciprocal) ∧
    (∀ (m : MOB) r h1 m1, m.Move f.m_handler r = some (h1, m1) → h1.GetWorld.Reciprocal) ∧
    (∀ (m : MOB) r, (m.Create f.m_handler r).1.GetWorld.Reciprocal) ∧
    (f.MobsInRooms → ∀ cs f1, f.run cs = some f1 →
        f1.m_handler.GetWorld.Reciprocal ∧ f1.m_handler.GetWorld.NoDangling ∧
          f1.MobsInRooms) ∧
    (f.MobsInRooms → f.m_mobs ≠ [] → ∀ cs, ∃ f1, f.run cs = some f1) := by
  refine ⟨?_, ?_, ?_, ?_, ?_⟩
  · intro rLoc rBeg rEnd f1 hs
    exact MobFactory.call_Reciprocal f (Call.spawn rLoc rBeg rEnd) f1 hrec hnd hs
  · intro m r h1 m1 hmv
    obtain ⟨-, hw, -⟩ := MOB.Move_cases m f.m_handler r h1 m1 hmv
    rw [hw]
    exact hrec
  · intro m r
    exact MOB.Create_Reciprocal m f.m_handler r hrec hnd
  · intro hin cs f1 hrun
    exact MobFactory.run_invariants f cs f1 hrec hnd hin hrun
  · intro hin hne cs
    obtain ⟨f1, hrun, -⟩ := MobFactory.run_MobsInRooms f cs hne hin
    exact ⟨f1, hrun⟩

/-- Witness of C5, amended: the factory with one mob in the single-room world. -/
theorem MobFactory.Reciprocal_preserved_witness :
    startFactory.m_handler.GetWorld.Reciprocal ∧
    startFactory.m_handler.GetWorld.NoDangling ∧
    ((∀ rLoc rBeg rEnd f1, startFactory.Spawn rLoc rBeg rEnd = some f1 →
        f1.m_handler.GetWorld.Reciprocal) ∧
    (∀ (m : MOB) r h1 m1, m.Move startFactory.m_handler r = some (h1, m1) →
        h1.GetWorld.Reciprocal) ∧
    (∀ (m : MOB) r, (m.Create startFactory.m_handler r).1.GetWorld.Reciprocal) ∧
    (startFactory.MobsInRooms → ∀ cs f1, startFactory.run cs = some f1 →
        f1.m_handler.GetWorld.Reciprocal ∧ f1.m_handler.GetWorld.NoDangling ∧
          f1.MobsInRooms) ∧
    (startFactory.MobsInRooms → startFactory.m_mobs ≠ [] →
        ∀ cs, ∃ f1, startFactory.run cs = some f1)) :=
  ⟨startWorld_Reciprocal, startWorld_NoDangling,
    MobFactory.Reciprocal_preserved startFactory startWorld_Reciprocal
      startWorld_NoDangling⟩

/-- C6 (mob-position invariant): construct a factory over a non-empty world and apply any
sequence of `Spawn` and `RandomAction` calls with any draws; the construction and every
call return, and in the state reached every mob's position is a coordinate at which a
room exists. -/
theorem MobFactory.mobs_stand_in_rooms (w : SmallHandler) (rLoc rBeg rEnd : Nat)
    (cs : List Call) (hne : 0 < w.GetWorld.roomCount) :
    ∃ f0 f, MobFactory.ctor w rLoc rBeg rEnd = some f0 ∧ f0.run cs = some f ∧
      ∀ m ∈ f.m_mobs, (f.m_handler.GetWorld.FindAt m.m_x m.m_y).isSome = true := by
  have hrooms : w.GetWorld.rooms ≠ [] := List.length_pos.1 hne
  obtain ⟨f0, h0⟩ := MobFactory.Spawn_isSome { m_handler := w, m_mobs := [] } rLoc rBeg rEnd
    hrooms
  have hin0 : f0.MobsInRooms :=
    MobFactory.call_MobsInRooms { m_handler := w, m_mobs := [] }
      (Call.spawn rLoc rBeg rEnd) f0 (fun m hm => absurd hm (List.not_mem_nil m)) h0
  have hne0 : f0.m_mobs ≠ [] := by
    obtain ⟨x, y, d, -, rfl⟩ := MobFactory.Spawn_cases _ rLoc rBeg rEnd f0 h0
    simp
  obtain ⟨f, hrun, hin, -⟩ := MobFactory.run_MobsInRooms f0 cs hne0 hin0
  exact ⟨f0, f, h0, hrun, hin⟩

/-- Witness of C6: a factory built over the single-room world, whose mob digs east, then a
second mob is spawned, then the first mob tries to walk west. -/
theorem MobFactory.mobs_stand_in_rooms_witness :
    0 < startHandler.GetWorld.roomCount ∧
    ∃ f0 f, MobFactory.ctor startHandler 0 3 5 = some f0 ∧
      f0.run [Call.randomAction 0 0 2, Call.spawn 1 2 3, Call.randomAction 0 1 3] = some f ∧
      ∀ m ∈ f.m_mobs, (f.m_handler.GetWorld.FindAt m.m_x m.m_y).isSome = true :=
  ⟨by decide,
    MobFactory.mobs_stand_in_rooms startHandler 0 3 5
      [Call.randomAction 0 0 2, Call.spawn 1 2 3, Call.randomAction 0 1 3] (by decide)⟩

theorem MOB.Create_FindAt (m : MOB) (h : SmallHandler) (r : Nat) (x y : CInt) (d : String)
    (hd : h.GetWorld.FindAt x y = some d) : (m.Create h r).1.GetWorld.FindAt x y = some d := by
  rcases MOB.Create_world_cases m h r with hc | ⟨e, he, hfree, -⟩
  · rw [hc]; exact hd
  · rw [MOB.Create_free m h r he hfree]
    simp only [SmallHandler.GetWorld] at *
    rw [World.FindAt_Open, World.FindAt_Open, World.FindAt_AddAt _ _ _ _ _ _ hfree]
    have hne : ¬ (x = e.stepX m.m_x ∧ y = e.stepY m.m_y) := by
      rintro ⟨rfl, rfl⟩
      unfold World.hasRoom at hfree
      rw [hd] at hfree
      simp at hfree
    rw [if_neg hne]
    exact hd

theorem MOB.Create_roomCount_free (m : MOB) (h : SmallHandler) (r : Nat) {ny_x ny_y : CInt}
    {dir rdir : String} (hsw : m.createSwitch r = (ny_x, ny_y, dir, rdir))
    (hfree : h.GetWorld.hasRoom ny_x ny_y = false) :
    (m.Create h r).1.GetWorld.roomCount = h.GetWorld.roomCount + 1 := by
  rw [MOB.Create_free m h r hsw hfree]
  simp only [SmallHandler.GetWorld] at *
  rw [World.roomCount_Open, World.roomCount_Open, World.roomCount_AddAt _ _ _ _ hfree]

/-- C7 (rooms are never overwritten): across `Spawn`, `Move` and `Create`, with any draws,
every room that existed before the call still exists afterwards with the same
description; `Spawn` and `Move` leave the room count unchanged; `Create` changes the world
only when no room existed at the candidate coordinate, in which case the room count grows
by exactly one and the new room carries the creator's description, and otherwise leaves
the room count unchanged. -/
theorem MobFactory.rooms_never_overwritten (f : MobFactory) (m : MOB)
    (rLoc rBeg rEnd r : Nat) (ny_x ny_y : CInt) (dir rdir : String)
    (hsw : m.createSwitch r = (ny_x, ny_y, dir, rdir)) :
    (∀ f1, f.Spawn rLoc rBeg rEnd = some f1 →
      (∀ x y d, f.m_handler.GetWorld.FindAt x y = some d →
        f1.m_handler.GetWorld.FindAt x y = some d) ∧
      f1.m_handler.GetWorld.roomCount = f.m_handler.GetWorld.roomCount) ∧
    (∀ h1 m1, m.Move f.m_handler r = some (h1, m1) →
      (∀ x y d, f.m_handler.GetWorld.FindAt x y = some d →
        h1.GetWorld.FindAt x y = some d) ∧
      h1.GetWorld.roomCount = f.m_handler.GetWorld.roomCount) ∧
    (∀ x y d, f.m_handler.GetWorld.FindAt x y = some d →
      (m.Create f.m_handler r).1.GetWorld.FindAt x y = some d) ∧
    (f.m_handler.GetWorld.FindAt ny_x ny_y = none →
      (m.Create f.m_handler r).1.GetWorld.roomCount = f.m_handler.GetWorld.roomCount + 1 ∧
      (m.Create f.m_handler r).1.GetWorld.FindAt ny_x ny_y =
        some ("A small cell (created by " ++ m.m_name ++ ")")) ∧
    ((f.m_handler.GetWorld.FindAt ny_x ny_y).isSome = true →
      (m.Create f.m_handler r).1.GetWorld = f.m_handler.GetWorld ∧
      (m.Create f.m_handler r).1.GetWorld.roomCount = f.m_handler.GetWorld.roomCount) := by
  refine ⟨?_, ?_, ?_, ?_, ?_⟩
  · intro f1 hs
    obtain ⟨x, y, d, -, rfl⟩ := MobFactory.Spawn_cases f rLoc rBeg rEnd f1 hs
    exact ⟨fun _ _ _ hd => hd, rfl⟩
  · intro h1 m1 hmv
    obtain ⟨-, hw, -⟩ := MOB.Move_cases m f.m_handler r h1 m1 hmv
    rw [hw]
    exact ⟨fun _ _ _ hd => hd, rfl⟩
  · intro x y d hd
    exact MOB.Create_FindAt m f.m_handler r x y d hd
  · intro hnone
    have hfree : f.m_handler.GetWorld.hasRoom ny_x ny_y = false := by
      unfold World.hasRoom; rw [hnone]; rfl
    refine ⟨MOB.Create_roomCount_free m f.m_handler r hsw hfree, ?_⟩
    rw [MOB.Create_free m f.m_handler r hsw hfree]
    simp only [SmallHandler.GetWorld] at *
    rw [World.FindAt_Open, World.FindAt_Open, World.FindAt_AddAt _ _ _ _ _ _ hfree,
      if_pos ⟨rfl, rfl⟩]
  · intro hocc
    rw [MOB.Create_occupied m f.m_handler r hsw hocc]
    exact ⟨rfl, rfl⟩

/-- Witness of C7: the factory over the single-room world, whose mob digs east. -/
theorem MobFactory.rooms_never_overwritten_witness :
    sampleMob.createSwitch 2 = (1, 0, "east", "west") ∧
    startFactory.m_handler.GetWorld.FindAt 1 0 = none ∧
    (sampleMob.Create startFactory.m_handler 2).1.GetWorld.roomCount =
      startFactory.m_handler.GetWorld.roomCount + 1 ∧
    (sampleMob.Create startFactory.m_handler 2).1.GetWorld.FindAt 1 0 =
      some ("A small cell (created by " ++ sampleMob.m_name ++ ")") :=
  ⟨by decide, by decide,
    (MobFactory.rooms_never_overwritten startFactory sampleMob 0 0 0 2 1 0 "east" "west"
      (by decide)).2.2.2.1 (by decide)⟩

/-! ## Names -/

set_option maxRecDepth 100000 in
theorem nameCheck_all : ∀ i : Fin 11, ∀ j : Fin 13, nameCheck i.val j.val = true := by
  decide

theorem MobFactory.spawnName_mod (r1 r2 : Nat) :
    MobFactory.spawnName r1 r2 = MobFactory.spawnName (r1 % 11) (r2 % 13) := by
  have hb : MobFactory.m_name_beg.length = 11 := rfl
  have he : MobFactory.m_name_end.length = 13 := rfl
  simp only [MobFactory.spawnName, List.get_eq_getElem, hb, he, Nat.mod_mod]

/-- C8 (name well-formedness): for all draws `r1` and `r2`, the name generated in `Spawn`
equals `capitalize_first_letter (p ++ s)` for the configured prefix `p` with index
`r1 % 11` and the configured suffix `s` with index `r2 % 13`; its first character is upper
case and all the remaining characters are lower case. -/
theorem MobFactory.spawnName_wellformed (r1 r2 : Nat) :
    ∃ p s, MobFactory.m_name_beg[r1 % 11]? = some p ∧
      MobFactory.m_name_end[r2 % 13]? = some s ∧
      MobFactory.spawnName r1 r2 = capitalize_first_letter (p ++ s) ∧
      ∃ c cs, (MobFactory.spawnName r1 r2).data = c :: cs ∧ c.isUpper = true ∧
        cs.all Char.isLower = true := by
  have h := nameCheck_all ⟨r1 % 11, Nat.mod_lt r1 (by decide)⟩
    ⟨r2 % 13, Nat.mod_lt r2 (by decide)⟩
  rw [MobFactory.spawnName_mod r1 r2]
  unfold nameCheck at h
  simp only at h
  split at h
  · rename_i p s hp hs
    simp only [Bool.and_eq_true, decide_eq_true_eq] at h
    obtain ⟨heq, hrest⟩ := h
    refine ⟨p, s, hp, hs, heq, ?_⟩
    split at hrest
    · simp at hrest
    · rename_i c cs hdata
      simp only [Bool.and_eq_true] at hrest
      exact ⟨c, cs, hdata, hrest.1, hrest.2⟩
  · simp at h

/-! ## `Spawn` and `RandomAction` -/

/-- Counterexample to C9 as stated: spawning in the single-room world broadcasts
`"Nazguz enters the world\n"`, with a final newline, not `"Nazguz enters the world"`. -/
theorem MobFactory.Spawn_message_ends_with_newline :
    (startFactory.Spawn 0 0 0).map (fun f1 => (f1.m_mobs, f1.m_handler.events)) =
      some ([sampleMob, { m_x := 0, m_y := 0, m_name := "Nazguz" }],
            [(0, 0, "Nazguz enters the world\n")]) ∧
    (startFactory.Spawn 0 0 0).map (fun f1 => f1.m_handler.events) ≠
      some (startFactory.m_handler.events ++ [(0, 0, "Nazguz" ++ " enters the world")]) := by
  decide

/-- C9, amended (`Spawn`): over a non-empty world and for all draws, `Spawn` returns; it
appends exactly one new mob at the end of the collection (the count grows by one, the mobs
owned before keep their order, names and positions), the new mob stands at the coordinate
returned by `GetRandomLocation`, the world grid is unchanged, and exactly one broadcast is
emitted, at that coordinate, with the message `"<Name> enters the world\n"`, where `<Name>`
is the new mob's name. -/
theorem MobFactory.Spawn_appends (f : MobFactory) (rLoc rBeg rEnd : Nat)
    (hne : 0 < f.m_handler.GetWorld.roomCount) :
    ∃ x y d f1, f.m_handler.GetWorld.GetRandomLocation rLoc = some (x, y, d) ∧
      f.Spawn rLoc rBeg rEnd = some f1 ∧
      f1.m_mobs = f.m_mobs ++
        [{ m_x := x, m_y := y, m_name := MobFactory.spawnName rBeg rEnd }] ∧
      f1.NumberOfMobs = f.NumberOfMobs + 1 ∧
      f1.m_handler.GetWorld = f.m_handler.GetWorld ∧
      f1.m_handler.events = f.m_handler.events ++
        [(x, y, MobFactory.spawnName rBeg rEnd ++ " enters the world\n")] := by
  obtain ⟨f1, hs⟩ := MobFactory.Spawn_isSome f rLoc rBeg rEnd (List.length_pos.1 hne)
  obtain ⟨x, y, d, hloc, rfl⟩ := MobFactory.Spawn_cases f rLoc rBeg rEnd f1 hs
  refine ⟨x, y, d, _, hloc, hs, rfl, ?_, rfl, rfl⟩
  simp [MobFactory.NumberOfMobs]

/-- Witness of C9, amended: spawning in the single-room world. -/
theorem MobFactory.Spawn_appends_witness :
    0 < startFactory.m_handler.GetWorld.roomCount ∧
    ∃ x y d f1, startFactory.m_handler.GetWorld.GetRandomLocation 0 = some (x, y, d) ∧
      startFactory.Spawn 0 0 0 = some f1 ∧
      f1.m_mobs = startFactory.m_mobs ++
        [{ m_x := x, m_y := y, m_name := MobFactory.spawnName 0 0 }] ∧
      f1.NumberOfMobs = startFactory.NumberOfMobs + 1 ∧
      f1.m_handler.GetWorld = startFactory.m_handler.GetWorld ∧
      f1.m_handler.events = startFactory.m_handler.events ++
        [(x, y, MobFactory.spawnName 0 0 ++ " enters the world\n")] :=
  ⟨by decide, MobFactory.Spawn_appends startFactory 0 0 0 (by decide)⟩

theorem MobFactory.set_frame {l : List MOB} {i : Nat} {p p1 : MOB} (hp : l[i]? = some p)
    (hname : p1.m_name = p.m_name) :
    (l.set i p1).length = l.length ∧
      (l.set i p1).map (fun m => m.m_name) = l.map (fun m => m.m_name) ∧
      ∀ j, j ≠ i → (l.set i p1)[j]? = l[j]? := by
  refine ⟨List.length_set _ _ _, ?_, fun j hj => List.getElem?_set_ne (Ne.symm hj)⟩
  apply List.ext_getElem?
  intro n
  rw [List.getElem?_map, List.getElem?_map, List.getElem?_set]
  by_cases hin : i = n
  · subst hin
    rw [if_pos rfl, hp]
    have hlt : i < l.length := by
      by_contra hc
      rw [List.getElem?_eq_none (Nat.le_of_not_lt hc)] at hp
      simp at hp
    rw [if_pos hlt]
    simp [hname]
  · rw [if_neg hin]

/-- C10 (`RandomAction` dispatch): for a factory with `n ≥ 1` mobs and draws `rMob`, `rAct`
and `rDir`, `RandomAction` selects the mob `p` at index `rMob % n`; when `rAct % 10 = 0`
it is the result of `Create` on `p`, and otherwise the result of `Move` on `p` (so one
residue out of ten leads to `Create`); the outcome replaces `p` at its index, and in the
state returned the number and the order of the mobs, every mob's name and every other
mob's position are unchanged. When every mob stands in a room, `RandomAction` returns. -/
theorem MobFactory.RandomAction_dispatch (f : MobFactory) (rMob rAct rDir : Nat)
    (hn : 1 ≤ f.NumberOfMobs) :
    ∃ p, f.m_mobs[rMob % f.NumberOfMobs]? = some p ∧
      (rAct % 10 = 0 →
        f.RandomAction rMob rAct rDir =
          some { m_handler := (p.Create f.m_handler rDir).1,
                 m_mobs := f.m_mobs.set (rMob % f.NumberOfMobs)
                   (p.Create f.m_handler rDir).2 }) ∧
      (rAct % 10 ≠ 0 →
        f.RandomAction rMob rAct rDir =
          (p.Move f.m_handler rDir).map (fun hp =>
            { m_handler := hp.1, m_mobs := f.m_mobs.set (rMob % f.NumberOfMobs) hp.2 })) ∧
      ((List.range 10).filter (fun k => decide (k % 10 = 0))).length = 1 ∧
      (∀ f1, f.RandomAction rMob rAct rDir = some f1 →
        f1.NumberOfMobs = f.NumberOfMobs ∧
        f1.m_mobs.map (fun m => m.m_name) = f.m_mobs.map (fun m => m.m_name) ∧
        ∀ j, j ≠ rMob % f.NumberOfMobs → f1.m_mobs[j]? = f.m_mobs[j]?) ∧
      (f.MobsInRooms → ∃ f1, f.RandomAction rMob rAct rDir = some f1) := by
  unfold MobFactory.NumberOfMobs at *
  have hsz : 0 < f.m_mobs.length := hn
  have hlt : rMob % f.m_mobs.length < f.m_mobs.length := Nat.mod_lt rMob hsz
  have hp : f.m_mobs[rMob % f.m_mobs.length]? =
      some (f.m_mobs.get ⟨rMob % f.m_mobs.length, hlt⟩) := by
    rw [List.getElem?_eq_getElem hlt]
    rfl
  refine ⟨_, hp, ?_, ?_, by decide, ?_, ?_⟩
  · intro h0
    unfold MobFactory.RandomAction
    rw [dif_pos hsz]
    simp only [h0]
  · intro h0
    unfold MobFactory.RandomAction
    rw [dif_pos hsz]
    simp only
    generalize rAct % 10 = k at h0
    cases k with
    | zero => exact absurd rfl h0
    | succ k =>
      cases (f.m_mobs.get ⟨rMob % f.m_mobs.length, hlt⟩).Move f.m_handler rDir with
      | none => rfl
      | some v => rfl
  · intro f1 hs
    obtain ⟨q, hq, hcase⟩ := MobFactory.RandomAction_cases f rMob rAct rDir f1 hs
    rcases hcase with ⟨-, rfl⟩ | ⟨-, h1, p1, hmv, rfl⟩
    · exact MobFactory.set_frame hq (MOB.Create_name q f.m_handler rDir)
    · exact MobFactory.set_frame hq (MOB.Move_cases q f.m_handler rDir h1 p1 hmv).2.2.1
  · intro hin
    exact MobFactory.RandomAction_isSome f rMob rAct rDir (List.length_pos.1 hsz) hin

/-- Witness of C10: one tick of the factory with one mob in the single-room world. -/
theorem MobFactory.RandomAction_dispatch_witness :
    1 ≤ startFactory.NumberOfMobs ∧
    startFactory.m_mobs[0 % startFactory.NumberOfMobs]? = some sampleMob ∧
    startFactory.RandomAction 0 0 2 =
      some { m_handler := (sampleMob.Create startFactory.m_handler 2).1,
             m_mobs := startFactory.m_mobs.set (0 % startFactory.NumberOfMobs)
               (sampleMob.Create startFactory.m_handler 2).2 } := by
  obtain ⟨p, hp, hc, -⟩ := MobFactory.RandomAction_dispatch startFactory 0 0 2 (by decide)
  have hp2 : startFactory.m_mobs[0 % startFactory.NumberOfMobs]? = some sampleMob := by
    decide
  have hpe : p = sampleMob := Option.some.inj (hp.symm.trans hp2)
  subst hpe
  exact ⟨by decide, hp2, hc (by decide)⟩

/-! ## Claims on the empty factory and on `ShowNamesAt` -/

/-- C11 (`RandomAction` precondition): when the mob collection is empty, `RandomAction`
does not return normally, whatever the draws: it ends in the error of `random() % 0`, and
in particular it is not a no-op returning the unchanged factory. -/
theorem MobFactory.RandomAction_empty (f : MobFactory) (rMob rAct rDir : Nat)
    (hempty : f.NumberOfMobs = 0) :
    f.RandomAction rMob rAct rDir = none ∧ f.RandomAction rMob rAct rDir ≠ some f := by
  have hnone : f.RandomAction rMob rAct rDir = none := by
    unfold MobFactory.NumberOfMobs at hempty
    unfold MobFactory.RandomAction
    rw [dif_neg (by omega)]
  rw [hnone]
  exact ⟨rfl, fun hc => Option.noConfusion hc⟩

/-- Witness of C11: a tick on the factory that owns no mob. -/
theorem MobFactory.RandomAction_empty_witness :
    emptyFactory.NumberOfMobs = 0 ∧
    emptyFactory.RandomAction 7 3 2 = none ∧ emptyFactory.RandomAction 7 3 2 ≠ some emptyFactory :=
  ⟨by decide, MobFactory.RandomAction_empty emptyFactory 7 3 2 (by decide)⟩

theorem MobFactory.showNamesLoop_eq (x y : CInt) (pfx : String) (l : List MOB)
    (p : SmallSocket) :
    (MobFactory.showNamesLoop x y pfx l p).sent =
      p.sent ++ (l.filter (fun m => decide (m.m_x = x ∧ m.m_y = y))).map
        (fun m => "  " ++ pfx ++ m.m_name ++ "\n") := by
  induction l generalizing p with
  | nil => simp [MobFactory.showNamesLoop]
  | cons m rest ih =>
    unfold MobFactory.showNamesLoop
    by_cases hm : m.m_x = x ∧ m.m_y = y
    · rw [if_pos hm, ih, List.filter_cons_of_pos (by simpa using hm)]
      simp [SmallSocket.Send]
    · rw [if_neg hm, ih, List.filter_cons_of_neg (by simpa using hm)]

/-- C12 (`ShowNamesAt`): the lines sent to the observer are, after what it had received
before, the mobs of the collection filtered in spawn order to those standing exactly at
`(x, y)`, each mapped to `"  " ++ prefix ++ name ++ "\n"`. Hence a collection of two mobs
both at `(x, y)` yields both names in spawn order, a coordinate where no mob stands yields
no line, and the call changes neither the mobs nor the world (the factory is unchanged). -/
theorem MobFactory.ShowNamesAt_lines (f : MobFactory) (p : SmallSocket) (x y : CInt)
    (pfx : String) :
    (f.ShowNamesAt p x y pfx).2.sent =
        p.sent ++ (f.m_mobs.filter (fun m => decide (m.m_x = x ∧ m.m_y = y))).map
          (fun m => "  " ++ pfx ++ m.m_name ++ "\n") ∧
      (∀ a b : MOB, f.m_mobs = [a, b] → a.m_x = x ∧ a.m_y = y → b.m_x = x ∧ b.m_y = y →
        (f.ShowNamesAt p x y pfx).2.sent =
          p.sent ++ ["  " ++ pfx ++ a.m_name ++ "\n", "  " ++ pfx ++ b.m_name ++ "\n"]) ∧
      ((∀ m ∈ f.m_mobs, ¬ (m.m_x = x ∧ m.m_y = y)) →
        (f.ShowNamesAt p x y pfx).2.sent = p.sent) ∧
      (f.ShowNamesAt p x y pfx).1 = f := by
  have hmain := MobFactory.showNamesLoop_eq x y pfx f.m_mobs p
  refine ⟨hmain, ?_, ?_, rfl⟩
  · intro a b hab ha hb
    show (MobFactory.showNamesLoop x y pfx f.m_mobs p).sent = _
    rw [hmain, hab]
    simp [ha, hb]
  · intro hnone
    show (MobFactory.showNamesLoop x y pfx f.m_mobs p).sent = _
    rw [hmain]
    have hf : f.m_mobs.filter (fun m => decide (m.m_x = x ∧ m.m_y = y)) = [] := by
      rw [List.filter_eq_nil_iff]
      intro m hm
      simpa using hnone m hm
    rw [hf]
    simp

/-- Witness of C12: in the corridor with two mobs at `(0, 0)` and one at `(1, 0)`, the
names at `(0, 0)` come in spawn order and no line is sent for `(0, 1)`. -/
theorem MobFactory.ShowNamesAt_lines_witness :
    (crowdFactory.ShowNamesAt { sent := [] } 0 0 "* ").2.sent =
        ["  * Nazguz\n", "  * Gnargul\n"] ∧
      (crowdFactory.ShowNamesAt { sent := [] } 0 1 "* ").2.sent = [] ∧
      (crowdFactory.ShowNamesAt { sent := [] } 0 0 "* ").1 = crowdFactory := by
  have h := (MobFactory.ShowNamesAt_lines crowdFactory { sent := [] } 0 0 "* ").1
  have h2 := (MobFactory.ShowNamesAt_lines crowdFactory { sent := [] } 0 1 "* ").2.2.1
    (by decide)
  exact ⟨h.trans (by decide), h2, rfl⟩

/-! ## The single-room scenario -/

theorem singleRoomWorld_roomAt (desc : String) (x y : CInt) :
    (singleRoomWorld desc).roomAt x y =
      if x = 0 ∧ y = 0 then some (ROOM.closed 0 0 desc) else none := by
  unfold singleRoomWorld World.roomAt
  simp only [List.find?_cons, List.find?_nil]
  by_cases hc : x = 0 ∧ y = 0
  · rw [if_pos hc, (ROOM.closed_isAt 0 0 desc x y).2 hc]
  · rw [if_neg hc]
    have : (ROOM.closed 0 0 desc).isAt x y = false := by
      rw [Bool.eq_false_iff]
      exact fun hh => hc ((ROOM.closed_isAt 0 0 desc x y).1 hh)
    rw [this]

theorem singleRoomWorld_hasRoom (desc : String) (x y : CInt) :
    (singleRoomWorld desc).hasRoom x y = true ↔ x = 0 ∧ y = 0 := by
  rw [World.hasRoom_iff_roomAt, singleRoomWorld_roomAt]
  by_cases hc : x = 0 ∧ y = 0
  · simp [hc]
  · simp [hc]

theorem singleRoomWorld_isOpen (desc : String) (x y : CInt) (d : String) :
    (singleRoomWorld desc).isOpen x y d = false := by
  rw [Bool.eq_false_iff]
  intro h
  obtain ⟨r, hr, hf⟩ := (World.isOpen_iff _ _ _ _).1 h
  rw [singleRoomWorld_roomAt] at hr
  split_ifs at hr
  simp only [Option.some.injEq] at hr
  subst hr
  simp [ROOM.closed, flagNamed_false] at hf

theorem singleRoomWorld_GetAt (desc : String) :
    (singleRoomWorld desc).GetAt 0 0 = some (desc, false, false, false, false) := by
  unfold World.GetAt
  rw [singleRoomWorld_roomAt, if_pos ⟨rfl, rfl⟩]
  rfl

theorem singleRoomWorld_GetRandomLocation (desc : String) (r : Nat) :
    (singleRoomWorld desc).GetRandomLocation r = some (0, 0, desc) := by
  unfold World.GetRandomLocation singleRoomWorld
  simp [Nat.mod_one, ROOM.closed]

/-- C13 (single-room scenario): in a world containing only the room `(0, 0)` with all four
directions closed, `Spawn` places the new mob at `(0, 0)`; for every draw `Move` of a mob
at `(0, 0)` is rejected (handler and mob unchanged, hence no broadcast); for every draw
`Create` succeeds (the candidate is free, the mob moves there, the world has two rooms);
and after it the room `(0, 0)` has exactly one open direction, the chosen one, and the new
room has exactly one open direction, the opposite one. -/
theorem MobFactory.single_room_scenario (f : MobFactory) (desc name : String)
    (rLoc rBeg rEnd r : Nat) (ny_x ny_y : CInt) (dir rdir : String)
    (hw : f.m_handler.GetWorld = singleRoomWorld desc)
    (hsw : MOB.createSwitch { m_x := 0, m_y := 0, m_name := name } r =
      (ny_x, ny_y, dir, rdir)) :
    (∃ f1, f.Spawn rLoc rBeg rEnd = some f1 ∧
      f1.m_mobs = f.m_mobs ++
        [{ m_x := 0, m_y := 0, m_name := MobFactory.spawnName rBeg rEnd }]) ∧
    MOB.Move { m_x := 0, m_y := 0, m_name := name } f.m_handler r =
      some (f.m_handler, { m_x := 0, m_y := 0, m_name := name }) ∧
    f.m_handler.GetWorld.FindAt ny_x ny_y = none ∧
    (MOB.Create { m_x := 0, m_y := 0, m_name := name } f.m_handler r).2 =
      { m_x := ny_x, m_y := ny_y, m_name := name } ∧
    (MOB.Create { m_x := 0, m_y := 0, m_name := name } f.m_handler r).1.GetWorld.roomCount
      = 2 ∧
    (∀ s, (MOB.Create { m_x := 0, m_y := 0, m_name := name } f.m_handler
        r).1.GetWorld.isOpen 0 0 s = true ↔ s = dir) ∧
    (∀ s, (MOB.Create { m_x := 0, m_y := 0, m_name := name } f.m_handler
        r).1.GetWorld.isOpen ny_x ny_y s = true ↔ s = rdir) ∧
    (dir, rdir) ∈ [("north", "south"), ("south", "north"), ("east", "west"),
      ("west", "east")] := by
  obtain ⟨d, hd⟩ := MOB.createSwitch_dir { m_x := 0, m_y := 0, m_name := name } r
  rw [hsw] at hd
  simp only [Prod.mk.injEq] at hd
  obtain ⟨rfl, rfl, rfl, rfl⟩ := hd
  have hne := Dir.step_ne d 0 0
  have hfree : f.m_handler.GetWorld.hasRoom (d.stepX 0) (d.stepY 0) = false := by
    rw [hw, Bool.eq_false_iff]
    exact fun hh => hne ((singleRoomWorld_hasRoom desc _ _).1 hh)
  have hin : f.m_handler.GetWorld.hasRoom 0 0 = true := by
    rw [hw]
    exact (singleRoomWorld_hasRoom desc 0 0).2 ⟨rfl, rfl⟩
  refine ⟨?_, ?_, ?_, ?_, ?_, ?_, ?_, ?_⟩
  · unfold MobFactory.Spawn
    rw [hw, singleRoomWorld_GetRandomLocation]
    exact ⟨_, rfl, rfl⟩
  · have hget : f.m_handler.GetWorld.GetAt 0 0 = some (desc, false, false, false, false) := by
      rw [hw]
      exact singleRoomWorld_GetAt desc
    rcases MOB.moveSwitch_cases { m_x := 0, m_y := 0, m_name := name } false false false
        false r with hc | hc | hc | hc <;>
      exact MOB.Move_rejected _ f.m_handler r hget hc (Or.inl rfl)
  · unfold World.hasRoom at hfree
    cases hq : f.m_handler.GetWorld.FindAt (d.stepX 0) (d.stepY 0) with
    | none => rfl
    | some v => rw [hq] at hfree; simp at hfree
  · rw [MOB.Create_free _ f.m_handler r hsw hfree]
  · rw [MOB.Create_roomCount_free _ f.m_handler r hsw hfree, hw]
    rfl
  · intro s
    rw [MOB.Create_isOpen_iff _ f.m_handler r d hsw hfree, hw, singleRoomWorld_isOpen]
    constructor
    · rintro (hc | ⟨-, -, -, hs⟩ | ⟨hx, hy, -⟩)
      · exact absurd hc (by simp)
      · exact hs
      · exact absurd ⟨hx.symm, hy.symm⟩ hne
    · intro hs
      rw [← hw]
      exact Or.inr (Or.inl ⟨rfl, rfl, hin, hs⟩)
  · intro s
    rw [MOB.Create_isOpen_iff _ f.m_handler r d hsw hfree, hw, singleRoomWorld_isOpen]
    constructor
    · rintro (hc | ⟨hx, hy, -, -⟩ | ⟨-, -, hs⟩)
      · exact absurd hc (by simp)
      · exact absurd ⟨hx, hy⟩ hne
      · exact hs
    · intro hs
      exact Or.inr (Or.inr ⟨rfl, rfl, hs⟩)
  · cases d <;> decide

/-- Witness of C13: the factory over the single-room world, its mob digging east. -/
theorem MobFactory.single_room_scenario_witness :
    startFactory.m_handler.GetWorld = singleRoomWorld "start" ∧
    MOB.createSwitch { m_x := 0, m_y := 0, m_name := "Nazguz" } 2 =
      (1, 0, "east", "west") ∧
    MOB.Move { m_x := 0, m_y := 0, m_name := "Nazguz" } startFactory.m_handler 2 =
      some (startFactory.m_handler, { m_x := 0, m_y := 0, m_name := "Nazguz" }) ∧
    (MOB.Create { m_x := 0, m_y := 0, m_name := "Nazguz" } startFactory.m_handler
      2).1.GetWorld.roomCount = 2 ∧
    (∀ s, (MOB.Create { m_x := 0, m_y := 0, m_name := "Nazguz" } startFactory.m_handler
        2).1.GetWorld.isOpen 0 0 s = true ↔ s = "east") ∧
    (∀ s, (MOB.Create { m_x := 0, m_y := 0, m_name := "Nazguz" } startFactory.m_handler
        2).1.GetWorld.isOpen 1 0 s = true ↔ s = "west") := by
  have h := MobFactory.single_room_scenario startFactory "start" "Nazguz" 0 0 0 2 1 0
    "east" "west" (by decide) (by decide)
  exact ⟨by decide, by decide, h.2.1, h.2.2.2.2.1, h.2.2.2.2.2.1, h.2.2.2.2.2.2.1⟩

/-! ## Broadcasts and the order of effects -/

/-- C14 (`Move` broadcasts): a successful `Move` (the mob stands in a room, the flag of the
chosen direction is open and a room exists at the candidate coordinate) emits exactly two
broadcasts, in this order: first `"<Name> leaves <direction>\n"` at the coordinate before
the move, then `"<Name> enters from the <opposite direction>\n"` at the coordinate after
the move, which is the candidate coordinate; the opposite of north, south, east, west is
south, north, west, east. No other broadcast is emitted. -/
theorem MOB.Move_broadcasts (m : MOB) (h : SmallHandler) (r : Nat) (str : String)
    (n s e w : Bool) (ny_x ny_y : CInt) (dir rdir : String)
    (hget : h.GetWorld.GetAt m.m_x m.m_y = some (str, n, s, e, w))
    (hsw : m.moveSwitch n s e w r = (ny_x, ny_y, dir, rdir, true))
    (hroom : (h.GetWorld.FindAt ny_x ny_y).isSome = true) :
    ∃ h1 m1, m.Move h r = some (h1, m1) ∧
      h1.events = h.events ++
        [(m.m_x, m.m_y, m.m_name ++ " leaves " ++ dir ++ "\n"),
         (m1.m_x, m1.m_y, m.m_name ++ " enters from the " ++ rdir ++ "\n")] ∧
      m1.m_x = ny_x ∧ m1.m_y = ny_y ∧
      (dir, rdir) ∈ [("north", "south"), ("south", "north"), ("east", "west"),
        ("west", "east")] := by
  refine ⟨_, _, MOB.Move_success m h r hget hsw hroom, ?_, rfl, rfl, ?_⟩
  · simp
  · rcases MOB.moveSwitch_cases m n s e w r with hc | hc | hc | hc <;>
      · rw [hsw] at hc
        simp only [Prod.mk.injEq] at hc
        obtain ⟨-, -, rfl, rfl, -⟩ := hc
        decide

/-- Witness of C14: the mob at `(0, 0)` of the corridor walks east. -/
theorem MOB.Move_broadcasts_witness :
    corridorHandler.GetWorld.GetAt sampleMob.m_x sampleMob.m_y =
      some ("start", false, false, true, false) ∧
    sampleMob.moveSwitch false false true false 2 = (1, 0, "east", "west", true) ∧
    (corridorHandler.GetWorld.FindAt 1 0).isSome = true ∧
    ∃ h1 m1, sampleMob.Move corridorHandler 2 = some (h1, m1) ∧
      h1.events = corridorHandler.events ++
        [(sampleMob.m_x, sampleMob.m_y, sampleMob.m_name ++ " leaves " ++ "east" ++ "\n"),
         (m1.m_x, m1.m_y, sampleMob.m_name ++ " enters from the " ++ "west" ++ "\n")] ∧
      m1.m_x = 1 ∧ m1.m_y = 0 ∧
      ("east", "west") ∈ [("north", "south"), ("south", "north"), ("east", "west"),
        ("west", "east")] :=
  ⟨by decide, by decide, by decide,
    MOB.Move_broadcasts sampleMob corridorHandler 2 "start" false false true false 1 0
      "east" "west" (by decide) (by decide) (by decide)⟩

theorem MOB.Create_eq_effects (m : MOB) (h : SmallHandler) (r : Nat) :
    m.Create h r = (m.CreateEffects h r).foldl Effect.apply (h, m) := by
  unfold MOB.Create MOB.CreateEffects
  split
  split_ifs <;> rfl

/-- C15 (`Create` effect order): a successful `Create` (no room at the candidate
coordinate) makes, in this order, the calls `AddAt(candidate, "A small cell (created by
<Name>)")`, `Open(current, direction)`, `Open(candidate, opposite direction)`, then the
two broadcasts `"<Name> creates a cell to the <direction>\n"` and
`"<Name> leaves <direction>\n"`, both at the current coordinate, and last `SetNewPos`
to the candidate. After the first three calls nothing has been broadcast yet and both
flags are open (the one of the current room when the mob stands in a room); at the end
exactly these two broadcasts have been added, none of them at the new room, and the mob
is at the candidate coordinate. -/
theorem MOB.Create_effect_order (m : MOB) (h : SmallHandler) (r : Nat) (ny_x ny_y : CInt)
    (dir rdir : String) (hsw : m.createSwitch r = (ny_x, ny_y, dir, rdir))
    (hfree : h.GetWorld.FindAt ny_x ny_y = none) :
    m.CreateEffects h r =
        [Effect.addAt ny_x ny_y ("A small cell (created by " ++ m.m_name ++ ")"),
         Effect.openAt m.m_x m.m_y dir,
         Effect.openAt ny_x ny_y rdir,
         Effect.event m.m_x m.m_y (m.m_name ++ " creates a cell to the " ++ dir ++ "\n"),
         Effect.event m.m_x m.m_y (m.m_name ++ " leaves " ++ dir ++ "\n"),
         Effect.setNewPos ny_x ny_y] ∧
      m.Create h r = (m.CreateEffects h r).foldl Effect.apply (h, m) ∧
      (((m.CreateEffects h r).take 3).foldl Effect.apply (h, m)).1.events = h.events ∧
      (((m.CreateEffects h r).take 3).foldl Effect.apply (h, m)).1.GetWorld.isOpen
        ny_x ny_y rdir = true ∧
      (h.GetWorld.hasRoom m.m_x m.m_y = true →
        (((m.CreateEffects h r).take 3).foldl Effect.apply (h, m)).1.GetWorld.isOpen
          m.m_x m.m_y dir = true) ∧
      (m.Create h r).1.events = h.events ++
        [(m.m_x, m.m_y, m.m_name ++ " creates a cell to the " ++ dir ++ "\n"),
         (m.m_x, m.m_y, m.m_name ++ " leaves " ++ dir ++ "\n")] ∧
      ¬ (m.m_x = ny_x ∧ m.m_y = ny_y) ∧
      (m.Create h r).2 = { m_x := ny_x, m_y := ny_y, m_name := m.m_name } := by
  have hfree2 : h.GetWorld.hasRoom ny_x ny_y = false := by
    unfold World.hasRoom; rw [hfree]; rfl
  obtain ⟨hv, hrv⟩ := MOB.createSwitch_valid hsw
  have heff : m.CreateEffects h r =
      [Effect.addAt ny_x ny_y ("A small cell (created by " ++ m.m_name ++ ")"),
       Effect.openAt m.m_x m.m_y dir,
       Effect.openAt ny_x ny_y rdir,
       Effect.event m.m_x m.m_y (m.m_name ++ " creates a cell to the " ++ dir ++ "\n"),
       Effect.event m.m_x m.m_y (m.m_name ++ " leaves " ++ dir ++ "\n"),
       Effect.setNewPos ny_x ny_y] := by
    unfold MOB.CreateEffects
    rw [hsw]
    simp only [hfree, Option.isSome_none, Bool.not_false, if_true]
  have hne : ¬ (m.m_x = ny_x ∧ m.m_y = ny_y) := by
    obtain ⟨d, hd⟩ := MOB.createSwitch_dir m r
    rw [hsw] at hd
    simp only [Prod.mk.injEq] at hd
    obtain ⟨rfl, rfl, -, -⟩ := hd
    exact fun hc => Dir.step_ne d m.m_x m.m_y ⟨hc.1.symm, hc.2.symm⟩
  refine ⟨heff, MOB.Create_eq_effects m h r, ?_, ?_, ?_, ?_, hne, ?_⟩
  · rw [heff]
    rfl
  · rw [heff]
    simp only [List.take, List.foldl, Effect.apply, SmallHandler.setWorld,
      SmallHandler.GetWorld]
    rw [World.isOpen_Open]
    refine Or.inr ⟨rfl, rfl, ?_, rfl, hrv⟩
    rw [World.hasRoom_Open]
    exact (World.hasRoom_AddAt h.world _ _ _ _ _ hfree2).2 (Or.inr ⟨rfl, rfl⟩)
  · intro hin
    rw [heff]
    simp only [List.take, List.foldl, Effect.apply, SmallHandler.setWorld,
      SmallHandler.GetWorld]
    rw [World.isOpen_Open]
    left
    rw [World.isOpen_Open]
    refine Or.inr ⟨rfl, rfl, ?_, rfl, hv⟩
    exact (World.hasRoom_AddAt h.world _ _ _ _ _ hfree2).2 (Or.inl hin)
  · rw [MOB.Create_free m h r hsw hfree2]
    simp
  · rw [MOB.Create_free m h r hsw hfree2]

/-- Witness of C15: the mob at `(0, 0)` of the single-room world digs east. -/
theorem MOB.Create_effect_order_witness :
    sampleMob.createSwitch 2 = (1, 0, "east", "west") ∧
    startHandler.GetWorld.FindAt 1 0 = none ∧
    sampleMob.CreateEffects startHandler 2 =
      [Effect.addAt 1 0 "A small cell (created by Nazguz)",
       Effect.openAt 0 0 "east",
       Effect.openAt 1 0 "west",
       Effect.event 0 0 "Nazguz creates a cell to the east\n",
       Effect.event 0 0 "Nazguz leaves east\n",
       Effect.setNewPos 1 0] ∧
    (sampleMob.Create startHandler 2).1.events =
      [(0, 0, "Nazguz creates a cell to the east\n"), (0, 0, "Nazguz leaves east\n")] := by
  have h := MOB.Create_effect_order sampleMob startHandler 2 1 0 "east" "west" (by decide)
    (by decide)
  exact ⟨by decide, by decide, h.1.trans (by decide), h.2.2.2.2.2.1.trans (by decide)⟩

/-! ## Safety of `RandomAction` after construction -/

/-- C16 (`RandomAction` is always safe after construction): the constructor leaves exactly
one mob; from there every sequence of `Spawn` and `RandomAction` calls runs to its end,
and in every state `fa` reached this way there is at least one mob, the index
`r % NumberOfMobs()` used by `RandomAction` is a valid index into the collection for every
draw, `RandomAction` returns for all draws, and in every state `fb` reached from `fa` by
further calls the number of mobs is not smaller than in `fa`. -/
theorem MobFactory.RandomAction_always_safe (w : SmallHandler) (rLoc rBeg rEnd : Nat)
    (f0 : MobFactory) (cs1 cs2 : List Call)
    (hctor : MobFactory.ctor w rLoc rBeg rEnd = some f0) :
    f0.NumberOfMobs = 1 ∧
    ∃ fa fb, f0.run cs1 = some fa ∧ fa.run cs2 = some fb ∧
      1 ≤ fa.NumberOfMobs ∧ fa.NumberOfMobs ≤ fb.NumberOfMobs ∧
      (∀ r, r % fa.NumberOfMobs < fa.NumberOfMobs ∧
        ∃ p, fa.m_mobs[r % fa.NumberOfMobs]? = some p) ∧
      (∀ rMob rAct rDir, ∃ f1, fa.RandomAction rMob rAct rDir = some f1) := by
  unfold MobFactory.ctor at hctor
  have hin0 : f0.MobsInRooms :=
    MobFactory.call_MobsInRooms { m_handler := w, m_mobs := [] }
      (Call.spawn rLoc rBeg rEnd) f0 (fun m hm => absurd hm (List.not_mem_nil m)) hctor
  have hlen0 : f0.m_mobs.length = 1 := by
    obtain ⟨x, y, d, -, rfl⟩ := MobFactory.Spawn_cases _ rLoc rBeg rEnd f0 hctor
    simp
  have hne0 : f0.m_mobs ≠ [] := by
    intro h0
    rw [h0] at hlen0
    simp at hlen0
  obtain ⟨fa, hra, hina, hlena⟩ := MobFactory.run_MobsInRooms f0 cs1 hne0 hin0
  have hposa : 0 < fa.m_mobs.length := by omega
  have hnea : fa.m_mobs ≠ [] := List.length_pos.1 hposa
  obtain ⟨fb, hrb, -, hlenb⟩ := MobFactory.run_MobsInRooms fa cs2 hnea hina
  refine ⟨hlen0, fa, fb, hra, hrb, hposa, hlenb, ?_, ?_⟩
  · intro r
    have hlt : r % fa.m_mobs.length < fa.m_mobs.length := Nat.mod_lt r hposa
    exact ⟨hlt, fa.m_mobs[r % fa.m_mobs.length], List.getElem?_eq_getElem hlt⟩
  · intro rMob rAct rDir
    exact MobFactory.RandomAction_isSome fa rMob rAct rDir hnea hina

/-- Witness of C16: a factory built over the single-room world, then a tick, a spawn and
two more ticks. -/
theorem MobFactory.RandomAction_always_safe_witness :
    MobFactory.ctor startHandler 0 3 5 =
      some { m_handler := { world := startWorld,
                            events := [(0, 0, "Aahrtok enters the world\n")] },
             m_mobs := [{ m_x := 0, m_y := 0, m_name := "Aahrtok" }] } ∧
    ∃ fa fb,
      MobFactory.run { m_handler := { world := startWorld,
                                      events := [(0, 0, "Aahrtok enters the world\n")] },
                       m_mobs := [{ m_x := 0, m_y := 0, m_name := "Aahrtok" }] }
        [Call.randomAction 0 0 2, Call.spawn 1 2 3] = some fa ∧
      fa.run [Call.randomAction 1 1 3, Call.randomAction 0 0 0] = some fb ∧
      1 ≤ fa.NumberOfMobs ∧ fa.NumberOfMobs ≤ fb.NumberOfMobs ∧
      (∀ r, r % fa.NumberOfMobs < fa.NumberOfMobs ∧
        ∃ p, fa.m_mobs[r % fa.NumberOfMobs]? = some p) ∧
      (∀ rMob rAct rDir, ∃ f1, fa.RandomAction rMob rAct rDir = some f1) :=
  ⟨by decide,
    (MobFactory.RandomAction_always_safe startHandler 0 3 5 _
      [Call.randomAction 0 0 2, Call.spawn 1 2 3]
      [Call.randomAction 1 1 3, Call.randomAction 0 0 0] (by decide)).2⟩

/-! ## Draws and directions -/

theorem Dir.exists_draw (r : Nat) : ∃ d : Dir, r % 4 = d.draw := by
  have hlt : r % 4 < 4 := Nat.mod_lt r (by decide)
  generalize r % 4 = k at hlt
  interval_cases k
  · exact ⟨Dir.north, rfl⟩
  · exact ⟨Dir.south, rfl⟩
  · exact ⟨Dir.east, rfl⟩
  · exact ⟨Dir.west, rfl⟩

theorem MOB.createSwitch_draw (m : MOB) (r : Nat) (d : Dir) (hd : r % 4 = d.draw) :
    m.createSwitch r = (d.stepX m.m_x, d.stepY m.m_y, d.name, d.opposite.name) := by
  unfold MOB.createSwitch
  rw [hd]
  cases d <;> rfl

theorem MOB.moveSwitch_draw (m : MOB) (n s e w : Bool) (r : Nat) (d : Dir)
    (hd : r % 4 = d.draw) :
    m.moveSwitch n s e w r =
      (d.stepX m.m_x, d.stepY m.m_y, d.name, d.opposite.name, flagNamed d.name n s e w) := by
  unfold MOB.moveSwitch
  rw [hd]
  cases d <;> rfl

theorem World.isOpen_of_GetAt {w : World} {x y : CInt} {str : String} {n s e w' : Bool}
    (hget : w.GetAt x y = some (str, n, s, e, w')) (d : String) :
    w.isOpen x y d = flagNamed d n s e w' := by
  unfold World.isOpen
  rw [hget]

/-! ## Round trip and the defensive check -/

/-- C17 (create, then move back): for a draw `r` for which `Create` succeeds (no room at
the candidate coordinate), a following `Move` of the same mob whose draw `r2` selects the
opposite direction (north 0 and south 1, east 2 and west 3) returns and leaves the world
exactly as it was right after the `Create`, the mob keeping its name; and when the mob
stood in a room before the `Create`, this `Move` succeeds: the mob is back at its original
coordinate and the two broadcasts of a successful move are emitted. -/
theorem MOB.Create_then_Move_back (m : MOB) (h : SmallHandler) (r r2 : Nat)
    (ny_x ny_y : CInt) (dir rdir : String)
    (hsw : m.createSwitch r = (ny_x, ny_y, dir, rdir))
    (hfree : h.GetWorld.FindAt ny_x ny_y = none)
    (hopp : (r % 4, r2 % 4) ∈ [(0, 1), (1, 0), (2, 3), (3, 2)]) :
    ∃ h2 m2, (m.Create h r).2.Move (m.Create h r).1 r2 = some (h2, m2) ∧
      h2.GetWorld = (m.Create h r).1.GetWorld ∧ m2.m_name = m.m_name ∧
      (h.GetWorld.hasRoom m.m_x m.m_y = true →
        m2 = m ∧
        h2.events = (m.Create h r).1.events ++
          [(ny_x, ny_y, m.m_name ++ " leaves " ++ rdir ++ "\n"),
           (m.m_x, m.m_y, m.m_name ++ " enters from the " ++ dir ++ "\n")]) := by
  obtain ⟨d, hd⟩ := Dir.exists_draw r
  have hd2 : r2 % 4 = d.opposite.draw := by
    simp only [List.mem_cons, Prod.mk.injEq, List.mem_nil_iff, or_false] at hopp
    cases d <;> simp only [Dir.draw, Dir.opposite] at hd ⊢ <;> omega
  have hsw2 := MOB.createSwitch_draw m r d hd
  rw [hsw] at hsw2
  simp only [Prod.mk.injEq] at hsw2
  obtain ⟨rfl, rfl, rfl, rfl⟩ := hsw2
  have hfree2 : h.GetWorld.hasRoom (d.stepX m.m_x) (d.stepY m.m_y) = false := by
    unfold World.hasRoom; rw [hfree]; rfl
  have hm1 : (m.Create h r).2 =
      { m_x := d.stepX m.m_x, m_y := d.stepY m.m_y, m_name := m.m_name } := by
    rw [MOB.Create_free m h r hsw hfree2]
  have hopen : (m.Create h r).1.GetWorld.isOpen (d.stepX m.m_x) (d.stepY m.m_y)
      d.opposite.name = true :=
    (MOB.Create_isOpen_iff m h r d hsw hfree2 _ _ _).2 (Or.inr (Or.inr ⟨rfl, rfl, rfl⟩))
  have hnew : (m.Create h r).1.GetWorld.hasRoom (d.stepX m.m_x) (d.stepY m.m_y) = true :=
    World.hasRoom_of_isOpen hopen
  have hmono := MOB.Create_hasRoom_mono m h r m.m_x m.m_y
  obtain ⟨str, n, s, e, w, hget⟩ := World.GetAt_isSome_of_hasRoom hnew
  rw [World.isOpen_of_GetAt hget] at hopen
  obtain ⟨hbx, hby⟩ := Dir.step_back d m.m_x m.m_y
  generalize (m.Create h r).1 = h1 at *
  rw [hm1]
  obtain ⟨h2, m2, hmv⟩ := MOB.Move_isSome
    { m_x := d.stepX m.m_x, m_y := d.stepY m.m_y, m_name := m.m_name } h1 r2 hnew
  obtain ⟨-, hw2, hname, -⟩ := MOB.Move_cases _ h1 r2 h2 m2 hmv
  refine ⟨h2, m2, hmv, hw2, hname, ?_⟩
  intro hin
  have hmsw := MOB.moveSwitch_draw
    { m_x := d.stepX m.m_x, m_y := d.stepY m.m_y, m_name := m.m_name } n s e w r2
    d.opposite hd2
  rw [hopen, Dir.opposite_opposite] at hmsw
  simp only [hbx, hby] at hmsw
  rw [MOB.Move_success _ h1 r2 hget hmsw (hmono hin)] at hmv
  simp only [Option.some.injEq, Prod.mk.injEq] at hmv
  obtain ⟨rfl, rfl⟩ := hmv
  exact ⟨rfl, by simp⟩

/-- Witness of C17: the mob at `(0, 0)` of the single-room world digs east, then walks
west. -/
theorem MOB.Create_then_Move_back_witness :
    sampleMob.createSwitch 2 = (1, 0, "east", "west") ∧
    startHandler.GetWorld.FindAt 1 0 = none ∧
    (2 % 4, 3 % 4) ∈ [(0, 1), (1, 0), (2, 3), (3, 2)] ∧
    startHandler.GetWorld.hasRoom sampleMob.m_x sampleMob.m_y = true ∧
    ∃ h2 m2, (sampleMob.Create startHandler 2).2.Move (sampleMob.Create startHandler 2).1 3 =
        some (h2, m2) ∧
      h2.GetWorld = (sampleMob.Create startHandler 2).1.GetWorld ∧ m2 = sampleMob ∧
      h2.events = (sampleMob.Create startHandler 2).1.events ++
        [(1, 0, sampleMob.m_name ++ " leaves " ++ "west" ++ "\n"),
         (sampleMob.m_x, sampleMob.m_y,
           sampleMob.m_name ++ " enters from the " ++ "east" ++ "\n")] := by
  obtain ⟨h2, m2, hmv, hw, -, hback⟩ :=
    MOB.Create_then_Move_back sampleMob startHandler 2 3 1 0 "east" "west" (by decide)
      (by decide) (by decide)
  obtain ⟨hm, hev⟩ := hback (by decide)
  exact ⟨by decide, by decide, by decide, by decide, h2, m2, hmv, hw, hm, hev⟩

theorem SmallHandler.events_ne_append (h : SmallHandler) (a b : CInt × CInt × String)
    (w : World) : (⟨w, h.events ++ [a] ++ [b]⟩ : SmallHandler) ≠ h := by
  intro hc
  have hl := congrArg (fun k => k.events.length) hc
  simp at hl

/-- C18 (the defensive check is redundant without dangling flags): for a mob standing in
a room of a world in which every open flag of an existing room points at a coordinate
where a room exists, that property still holds after `Spawn`, after `Move` and after
`Create`; and `Move` succeeds exactly when the flag of the chosen direction is open at the
mob's room: an open flag always finds a room at the candidate coordinate, so the `FindAt`
check never causes a rejection, and a closed flag gives the no-op. -/
theorem MOB.defensive_check_redundant (f : MobFactory) (m : MOB) (r : Nat) (str : String)
    (n s e w : Bool) (ny_x ny_y : CInt) (dir rdir : String) (isOpen : Bool)
    (hnd : f.m_handler.GetWorld.NoDangling)
    (hget : f.m_handler.GetWorld.GetAt m.m_x m.m_y = some (str, n, s, e, w))
    (hsw : m.moveSwitch n s e w r = (ny_x, ny_y, dir, rdir, isOpen)) :
    (∀ rLoc rBeg rEnd f1, f.Spawn rLoc rBeg rEnd = some f1 →
        f1.m_handler.GetWorld.NoDangling) ∧
    (∀ r1 h1 m1, m.Move f.m_handler r1 = some (h1, m1) → h1.GetWorld.NoDangling) ∧
    (∀ r1, (m.Create f.m_handler r1).1.GetWorld.NoDangling) ∧
    (isOpen = true → (f.m_handler.GetWorld.FindAt ny_x ny_y).isSome = true) ∧
    (isOpen = true ↔
      m.Move f.m_handler r =
        some ({ world := f.m_handler.world,
                events := f.m_handler.events ++
                  [(m.m_x, m.m_y, m.m_name ++ " leaves " ++ dir ++ "\n")] ++
                  [(ny_x, ny_y, m.m_name ++ " enters from the " ++ rdir ++ "\n")] },
              { m_x := ny_x, m_y := ny_y, m_name := m.m_name })) ∧
    (isOpen = false ↔ m.Move f.m_handler r = some (f.m_handler, m)) := by
  have hin : f.m_handler.GetWorld.hasRoom m.m_x m.m_y = true := World.hasRoom_of_GetAt hget
  have hfind : isOpen = true → f.m_handler.GetWorld.hasRoom ny_x ny_y = true := by
    intro ho
    obtain ⟨d, hd⟩ := Dir.exists_draw r
    have hsw2 := MOB.moveSwitch_draw m n s e w r d hd
    rw [hsw] at hsw2
    simp only [Prod.mk.injEq] at hsw2
    obtain ⟨rfl, rfl, -, -, hflag⟩ := hsw2
    refine (World.NoDangling_iff _).1 hnd m.m_x m.m_y d ?_
    rw [World.isOpen_of_GetAt hget, ← hflag]
    exact ho
  refine ⟨?_, ?_, ?_, hfind, ?_, ?_⟩
  · intro rLoc rBeg rEnd f1 hs
    obtain ⟨x, y, d, -, rfl⟩ := MobFactory.Spawn_cases f rLoc rBeg rEnd f1 hs
    exact hnd
  · intro r1 h1 m1 hmv
    obtain ⟨-, hw, -⟩ := MOB.Move_cases m f.m_handler r1 h1 m1 hmv
    rw [hw]
    exact hnd
  · intro r1
    exact MOB.Create_NoDangling m f.m_handler r1 hnd hin
  · constructor
    · intro ho
      subst ho
      exact MOB.Move_success m f.m_handler r hget hsw (hfind rfl)
    · intro hmv
      cases isOpen with
      | true => rfl
      | false =>
        rw [MOB.Move_rejected m f.m_handler r hget hsw (Or.inl rfl)] at hmv
        simp only [Option.some.injEq, Prod.mk.injEq] at hmv
        exact absurd hmv.1.symm (SmallHandler.events_ne_append f.m_handler _ _ _)
  · constructor
    · intro ho
      exact MOB.Move_rejected m f.m_handler r hget hsw (Or.inl ho)
    · intro hmv
      cases isOpen with
      | false => rfl
      | true =>
        rw [MOB.Move_success m f.m_handler r hget hsw (hfind rfl)] at hmv
        simp only [Option.some.injEq, Prod.mk.injEq] at hmv
        exact absurd hmv.1 (SmallHandler.events_ne_append f.m_handler _ _ _)

theorem corridorWorld_isOpen (x y : CInt) (d : String)
    (h : corridorWorld.isOpen x y d = true) :
    (x = 0 ∧ y = 0 ∧ d = "east") ∨ (x = 1 ∧ y = 0 ∧ d = "west") := by
  obtain ⟨r, hr, hf⟩ := (World.isOpen_iff _ _ _ _).1 h
  obtain ⟨hx, hy⟩ := World.roomAt_isAt hr
  have hmem := List.mem_of_find?_eq_some hr
  simp only [corridorWorld, List.mem_cons, List.mem_singleton, List.mem_nil_iff,
    or_false] at hmem
  rcases hmem with rfl | rfl
  · refine Or.inl ⟨hx.symm, hy.symm, ?_⟩
    unfold flagNamed at hf
    split_ifs at hf with h1 h2 h3
    exact h3
  · refine Or.inr ⟨hx.symm, hy.symm, ?_⟩
    unfold flagNamed at hf
    split_ifs at hf with h1 h2 h3 h4
    exact h4

theorem corridorWorld_NoDangling : corridorWorld.NoDangling := by
  intro x y
  refine ⟨?_, ?_, ?_, ?_⟩ <;> intro ho <;>
    rcases corridorWorld_isOpen x y _ ho with ⟨rfl, rfl, hd⟩ | ⟨rfl, rfl, hd⟩ <;>
    first
    | exact absurd hd (by decide)
    | decide

/-- Witness of C18: in the corridor the mob at `(0, 0)` draws east, whose flag is open. -/
theorem MOB.defensive_check_redundant_witness :
    corridorFactory.m_handler.GetWorld.NoDangling ∧
    corridorFactory.m_handler.GetWorld.GetAt sampleMob.m_x sampleMob.m_y =
      some ("start", false, false, true, false) ∧
    sampleMob.moveSwitch false false true false 2 = (1, 0, "east", "west", true) ∧
    (corridorFactory.m_handler.GetWorld.FindAt 1 0).isSome = true ∧
    sampleMob.Move corridorFactory.m_handler 2 =
      some ({ world := corridorFactory.m_handler.world,
              events := corridorFactory.m_handler.events ++
                [(sampleMob.m_x, sampleMob.m_y,
                   sampleMob.m_name ++ " leaves " ++ "east" ++ "\n")] ++
                [(1, 0, sampleMob.m_name ++ " enters from the " ++ "west" ++ "\n")] },
            { m_x := 1, m_y := 0, m_name := sampleMob.m_name }) := by
  have h := MOB.defensive_check_redundant corridorFactory sampleMob 2 "start" false false
    true false 1 0 "east" "west" true corridorWorld_NoDangling (by decide) (by decide)
  exact ⟨corridorWorld_NoDangling, by decide, by decide, h.2.2.2.1 rfl, h.2.2.2.2.1.1 rfl⟩

/-! ## The direction tables of the two `switch` statements -/

theorem CInt.dec_toInt (a : CInt) (h : INT_MIN < a.toInt) : a.dec.toInt = a.toInt - 1 := by
  have h2 := a.property
  simp only [CInt.toInt, CInt.dec, CInt.ofInt, wrapInt, INT_MIN, INT_MAX] at *
  omega

theorem CInt.inc_toInt (a : CInt) (h : a.toInt < INT_MAX) : a.inc.toInt = a.toInt + 1 := by
  have h2 := a.property
  simp only [CInt.toInt, CInt.inc, CInt.ofInt, wrapInt, INT_MIN, INT_MAX] at *
  omega

/-- C19 (direction table agreement): for every draw `r`, `r % 4` falls in one of the four
cases of the two `switch` statements, and `Move` and `Create` map it to the same direction
name, opposite name and candidate coordinate: 0 to north, south, `(x, y - 1)`; 1 to south,
north, `(x, y + 1)`; 2 to east, west, `(x + 1, y)`; 3 to west, east, `(x - 1, y)`, `Move`
reading the flag of that direction. For coordinates away from the limits of `int` the
candidate is a 4-neighbour of the current position, and stepping in a direction and then
in the opposite one returns to the starting coordinate. -/
theorem MOB.switch_tables_agree (m : MOB) (n s e w : Bool) (r : Nat) :
    r % 4 < 4 ∧
    ((r % 4 = 0 ∧ m.createSwitch r = (m.m_x, m.m_y.dec, "north", "south") ∧
        m.moveSwitch n s e w r = (m.m_x, m.m_y.dec, "north", "south", n)) ∨
      (r % 4 = 1 ∧ m.createSwitch r = (m.m_x, m.m_y.inc, "south", "north") ∧
        m.moveSwitch n s e w r = (m.m_x, m.m_y.inc, "south", "north", s)) ∨
      (r % 4 = 2 ∧ m.createSwitch r = (m.m_x.inc, m.m_y, "east", "west") ∧
        m.moveSwitch n s e w r = (m.m_x.inc, m.m_y, "east", "west", e)) ∨
      (r % 4 = 3 ∧ m.createSwitch r = (m.m_x.dec, m.m_y, "west", "east") ∧
        m.moveSwitch n s e w r = (m.m_x.dec, m.m_y, "west", "east", w))) ∧
    (INT_MIN < m.m_y.toInt → m.m_y.dec.toInt = m.m_y.toInt - 1) ∧
    (m.m_y.toInt < INT_MAX → m.m_y.inc.toInt = m.m_y.toInt + 1) ∧
    (m.m_x.toInt < INT_MAX → m.m_x.inc.toInt = m.m_x.toInt + 1) ∧
    (INT_MIN < m.m_x.toInt → m.m_x.dec.toInt = m.m_x.toInt - 1) ∧
    (INT_MIN < m.m_x.toInt → m.m_x.toInt < INT_MAX →
      INT_MIN < m.m_y.toInt → m.m_y.toInt < INT_MAX →
      ((m.createSwitch r).1.toInt = m.m_x.toInt ∧
          ((m.createSwitch r).2.1.toInt = m.m_y.toInt - 1 ∨
            (m.createSwitch r).2.1.toInt = m.m_y.toInt + 1)) ∨
        ((m.createSwitch r).2.1.toInt = m.m_y.toInt ∧
          ((m.createSwitch r).1.toInt = m.m_x.toInt - 1 ∨
            (m.createSwitch r).1.toInt = m.m_x.toInt + 1))) ∧
    (∀ r2, (r % 4, r2 % 4) ∈ [(0, 1), (1, 0), (2, 3), (3, 2)] →
      (MOB.createSwitch
          (m.SetNewPos (m.createSwitch r).1 (m.createSwitch r).2.1) r2).1 = m.m_x ∧
      (MOB.createSwitch
          (m.SetNewPos (m.createSwitch r).1 (m.createSwitch r).2.1) r2).2.1 = m.m_y) := by
  have hlt : r % 4 < 4 := Nat.mod_lt r (by decide)
  refine ⟨hlt, ?_, CInt.dec_toInt _, CInt.inc_toInt _, CInt.inc_toInt _, CInt.dec_toInt _,
    ?_, ?_⟩
  · obtain ⟨d, hd⟩ := Dir.exists_draw r
    have hc := MOB.createSwitch_draw m r d hd
    have hm := MOB.moveSwitch_draw m n s e w r d hd
    cases d
    · exact Or.inl ⟨hd, hc, hm⟩
    · exact Or.inr (Or.inl ⟨hd, hc, hm⟩)
    · exact Or.inr (Or.inr (Or.inl ⟨hd, hc, hm⟩))
    · exact Or.inr (Or.inr (Or.inr ⟨hd, hc, hm⟩))
  · intro hx1 hx2 hy1 hy2
    obtain ⟨d, hd⟩ := Dir.exists_draw r
    rw [MOB.createSwitch_draw m r d hd]
    cases d
    · exact Or.inl ⟨rfl, Or.inl (CInt.dec_toInt _ hy1)⟩
    · exact Or.inl ⟨rfl, Or.inr (CInt.inc_toInt _ hy2)⟩
    · exact Or.inr ⟨rfl, Or.inr (CInt.inc_toInt _ hx2)⟩
    · exact Or.inr ⟨rfl, Or.inl (CInt.dec_toInt _ hx1)⟩
  · intro r2 hopp
    obtain ⟨d, hd⟩ := Dir.exists_draw r
    have hd2 : r2 % 4 = d.opposite.draw := by
      simp only [List.mem_cons, Prod.mk.injEq, List.mem_nil_iff, or_false] at hopp
      cases d <;> simp only [Dir.draw, Dir.opposite] at hd ⊢ <;> omega
    rw [MOB.createSwitch_draw m r d hd, MOB.createSwitch_draw _ r2 d.opposite hd2]
    exact Dir.step_back d m.m_x m.m_y

/-- Witness of C19: the mob at `(0, 0)` with the draw 2 (east), then the draw 3 (west). -/
theorem MOB.switch_tables_agree_witness :
    INT_MIN < sampleMob.m_x.toInt ∧ sampleMob.m_x.toInt < INT_MAX ∧
    INT_MIN < sampleMob.m_y.toInt ∧ sampleMob.m_y.toInt < INT_MAX ∧
    (2 % 4, 3 % 4) ∈ [(0, 1), (1, 0), (2, 3), (3, 2)] ∧
    sampleMob.m_x.inc.toInt = sampleMob.m_x.toInt + 1 ∧
    (((sampleMob.createSwitch 2).1.toInt = sampleMob.m_x.toInt ∧
        ((sampleMob.createSwitch 2).2.1.toInt = sampleMob.m_y.toInt - 1 ∨
          (sampleMob.createSwitch 2).2.1.toInt = sampleMob.m_y.toInt + 1)) ∨
      ((sampleMob.createSwitch 2).2.1.toInt = sampleMob.m_y.toInt ∧
        ((sampleMob.createSwitch 2).1.toInt = sampleMob.m_x.toInt - 1 ∨
          (sampleMob.createSwitch 2).1.toInt = sampleMob.m_x.toInt + 1))) ∧
    (MOB.createSwitch
        (sampleMob.SetNewPos (sampleMob.createSwitch 2).1 (sampleMob.createSwitch 2).2.1)
        3).1 = sampleMob.m_x := by
  have h := MOB.switch_tables_agree sampleMob false false false false 2
  exact ⟨by decide, by decide, by decide, by decide, by decide,
    h.2.2.2.2.1 (by decide),
    h.2.2.2.2.2.2.1 (by decide) (by decide) (by decide) (by decide),
    (h.2.2.2.2.2.2.2 3 (by decide)).1⟩
